import Mathlib

/-!
# GaseousMarble: bitmap-font layout and drawing (`src/draw.h`)

A shallow embedding of `gm::font_system` and `gm::draw_system`.

Conventions of the embedding
* `gm::real` (`double`) is idealised as an exact rational number in the layout; the
  setters of `src/gm.cpp`, whose guards decide on comparisons of `double`, see a `double`
  that is a number or NaN.
* `wchar_t` is a 16-bit code unit, carried as a natural number; a `std::wstring_view`
  is carried as the list of the code units it spans.
* `std::unordered_map<wchar_t, glyph_data>` is a partial function from codes to records;
  `operator[]` returns the stored record and, for an absent key, inserts a value-initialised
  (all zero) record first.
* Calls into the host (`gm_api`) are collected, in order, in a list returned by the operation.
-/

namespace gm

/-- The type `gm::real`. -/
abbrev real := ℚ

/-- A UTF-16 code unit. -/
abbrev wchar_t := Nat

/-- The record `gm::glyph_data`: atlas position, width and left bearing of a glyph. -/
structure glyph_data where
  x : Nat
  y : Nat
  width : Nat
  left : Int
deriving DecidableEq, Repr

/-- The member `font_data::glyph`, a `std::unordered_map<wchar_t, glyph_data>`. -/
abbrev glyph_map := wchar_t → Option glyph_data

/-- The record `gm::font_data`. -/
structure font_data where
  sprite_id : Nat
  size : Nat
  glyph_height : Nat
  glyph : glyph_map

/-- The record `gm::draw_setting` with its default member initialisers. -/
structure draw_setting where
  font_id : Nat := 0
  color_top : Nat := 0xffffff
  color_bottom : Nat := 0xffffff
  alpha : real := 1
  halign : Int := -1
  valign : Int := -1
  max_line_width : real := 0
  letter_spacing : real := 0
  word_spacing : real := 0
  line_height : real := 1
  offset_x : real := 0
  offset_y : real := 0
  scale_x : real := 1
  scale_y : real := 1

/-- The sixteen arguments of one call of `gm_api::draw_sprite_general`, in order. -/
structure draw_sprite_general where
  sprite : Nat
  subimg : Nat
  left : Nat
  top : Nat
  width : Nat
  height : Nat
  x : real
  y : real
  xscale : real
  yscale : real
  rot : Nat
  c1 : Nat
  c2 : Nat
  c3 : Nat
  c4 : Nat
  alpha : real
deriving DecidableEq, Repr

/-- The state of a `gm::draw_system`: the font registry (a `std::vector<font_data>`) and
the settings. -/
structure draw_system where
  _font : List font_data
  _setting : draw_setting

/-- A call of the host made by the font registry, with its arguments. -/
inductive host_call where
  | sprite_add (path : String) (imgnumb : Nat) (precise transparent : Bool)
      (xorig yorig : Nat)
  | sprite_delete (id : Nat)
deriving DecidableEq

/-- The part of `gm_api` the registry calls for a result: the handle `sprite_add` returns
for a path. -/
structure gm_api where
  sprite_add : String → Nat

/-- A `std::ifstream` in binary mode: the bytes not read yet, and whether the stream has
left the good state (`failbit`, set when the file cannot be opened and, together with
`eofbit`, when a read comes up short). -/
structure ifstream where
  data : List Nat
  fail : Bool

/-- The constructor `std::ifstream{path, std::ios::binary}`: `none` is a file that cannot
be opened. -/
def ifstream_open (content : Option (List Nat)) : ifstream :=
  match content with
  | some d => ⟨d, false⟩
  | none => ⟨[], true⟩

/-- The call `file.read(buf, n)`: `buf` is what the `n` destination bytes held before. On a
stream that is not good nothing is extracted; a short read stores the bytes that are left
and sets the failure flags. -/
def ifstream_read (file : ifstream) (n : Nat) (buf : List Nat) : List Nat × ifstream :=
  if file.fail then (buf, file)
  else if n ≤ file.data.length then (file.data.take n, ⟨file.data.drop n, false⟩)
  else (file.data ++ buf.drop file.data.length, ⟨[], true⟩)

/-- The little-endian `uint16_t` stored at bytes `i` and `i + 1` of an object. -/
def u16_at (bytes : List Nat) (i : Nat) : Nat :=
  bytes.getD i 0 % 256 + 256 * (bytes.getD (i + 1) 0 % 256)

/-- The little-endian two's complement `int16_t` stored at bytes `i` and `i + 1`. -/
def i16_at (bytes : List Nat) (i : Nat) : Int :=
  if u16_at bytes i < 32768 then (u16_at bytes i : Int) else (u16_at bytes i : Int) - 65536

/-- The `glyph_data` whose eight bytes of storage are `bytes`. -/
def glyph_of_bytes (bytes : List Nat) : glyph_data :=
  ⟨u16_at bytes 0, u16_at bytes 2, u16_at bytes 4, i16_at bytes 6⟩

/-- The test `strcmp(magic, "GLY") == 0` on the four bytes of `magic`. -/
def strcmp_GLY (magic : List Nat) : Bool :=
  decide (magic.take 4 = [71, 76, 89, 0])

/-- The bytes that the locals `add` declares without an initialiser hold before anything is
read into them: `magic`, `font.size`, `font.glyph_height`, and `ch` and `glyph` of the
`k`-th pass through the record loop. The source leaves them indeterminate. -/
structure indeterminate where
  magic : List Nat
  size : List Nat
  glyph_height : List Nat
  ch : Nat → List Nat
  glyph : Nat → List Nat

/-- The record loop `while (file) { ... }` of `font_system::add`, at its `k`-th pass, with
`fuel` passes allowed. -/
def add_loop (junk : indeterminate) : Nat → Nat → ifstream → glyph_map → glyph_map
  | 0, _, _, m => m
  | fuel + 1, k, file, m =>
    if file.fail then m
    else
      let r1 := ifstream_read file 2 (junk.ch k)
      let r2 := ifstream_read r1.2 8 (junk.glyph k)
      let ch := u16_at r1.1 0
      let glyph := glyph_of_bytes r2.1
      add_loop junk fuel (k + 1) r2.2 (fun c => if c = ch then some glyph else m c)

/-- The method `font_system::add`: the result, the registry afterwards and the host calls
made. `content` is what the file at `glyph_path` holds. Every pass of the record loop that
leaves the stream good has consumed ten bytes, so one pass more than there are bytes is
enough fuel. -/
def add (api : gm_api) (fonts : List font_data) (sprite_path : String)
    (content : Option (List Nat)) (junk : indeterminate) :
    Bool × List font_data × List host_call :=
  let file := ifstream_open content
  let r0 := ifstream_read file 4 junk.magic
  if !strcmp_GLY r0.1 then
    (false, fonts, [])
  else
    let sprite_id := api.sprite_add sprite_path
    let calls := [host_call.sprite_add sprite_path 1 false false 0 0]
    let r1 := ifstream_read r0.2 2 junk.size
    let r2 := ifstream_read r1.2 2 junk.glyph_height
    let size := u16_at r1.1 0
    let glyph_height := u16_at r2.1 0
    if size = 0 ∨ glyph_height = 0 then
      (false, fonts, calls)
    else
      let glyph := add_loop junk (r2.2.data.length + 1) 0 r2.2 (fun _ => none)
      (true, fonts ++ [⟨sprite_id, size, glyph_height, glyph⟩], calls)

/-- The unchecked `operator[]` of the registry; the index is in range wherever it is used
(after `contains`), the fallback stands for the undefined out-of-range access. -/
def font_at (fonts : List font_data) (font_id : Nat) : font_data :=
  fonts.getD font_id ⟨0, 0, 0, fun _ => none⟩

/-- The method `font_system::contains`. -/
def contains (fonts : List font_data) (font_id : Nat) : Bool :=
  decide (font_id < fonts.length) && decide ((font_at fonts font_id).size ≠ 0)

/-- The method `font_system::remove`. -/
def remove (fonts : List font_data) (font_id : Nat) :
    Bool × List font_data × List host_call :=
  if !contains fonts font_id then
    (false, fonts, [])
  else
    let font := font_at fonts font_id
    (true, fonts.set font_id { font with size := 0, glyph := fun _ => none },
     [host_call.sprite_delete font.sprite_id])

/-- The method `font_system::clear`. -/
def clear (fonts : List font_data) : List font_data × List host_call :=
  ([], fonts.map (fun i => host_call.sprite_delete i.sprite_id))

/-- The line feed `'\n'`. -/
def newline : wchar_t := 10

/-- The blank `' '`. -/
def space : wchar_t := 32

/-- A value-initialised `glyph_data`. -/
def glyph_zero : glyph_data := ⟨0, 0, 0, 0⟩

/-- The call `font.glyph[ch]`: the record found, and the map afterwards (an absent key is
inserted with a value-initialised record). -/
def glyph_index (m : glyph_map) (ch : wchar_t) : glyph_data × glyph_map :=
  match m ch with
  | some g => (g, m)
  | none => (glyph_zero, fun k => if k = ch then some glyph_zero else m k)

/-- The method `draw_system::_drawChar` on the active font: the font afterwards and the
call it issues. -/
def _drawChar (setting : draw_setting) (font : font_data) (x y : real) (ch : wchar_t) :
    font_data × draw_sprite_general :=
  let gi := glyph_index font.glyph ch
  let glyph := gi.1
  ({ font with glyph := gi.2 },
   { sprite := font.sprite_id
     subimg := 0
     left := glyph.x
     top := glyph.y
     width := glyph.width
     height := font.glyph_height
     x := x + (glyph.left : real) * setting.scale_x
     y := y
     xscale := setting.scale_x
     yscale := setting.scale_y
     rot := 0
     c1 := setting.color_top
     c2 := setting.color_top
     c3 := setting.color_bottom
     c4 := setting.color_bottom
     alpha := setting.alpha })

/-- The method `draw_system::_drawLine`: walks the line left to right. -/
def _drawLine (setting : draw_setting) :
    font_data → real → real → List wchar_t → font_data × List draw_sprite_general
  | font, _, _, [] => (font, [])
  | font, x, y, ch :: rest =>
    let scaled_letter_spacing := setting.letter_spacing * setting.scale_x
    let scaled_word_spacing := setting.word_spacing * setting.scale_x
    let gi := glyph_index font.glyph ch
    let glyph := gi.1
    let dc := _drawChar setting { font with glyph := gi.2 } x y ch
    let x1 := x + ((glyph.left + (glyph.width : Int) : Int) : real) * setting.scale_x
      + scaled_letter_spacing
    let x2 := if ch = space then x1 + scaled_word_spacing else x1
    let r := _drawLine setting dc.1 x2 y rest
    (r.1, dc.2 :: r.2)

/-- The loop of `draw_system::_drawLineR` over the characters in the order given (the
caller passes the line reversed). -/
def _drawLineR_loop (setting : draw_setting) :
    font_data → real → real → List wchar_t → font_data × List draw_sprite_general
  | font, _, _, [] => (font, [])
  | font, x, y, ch :: rest =>
    let scaled_letter_spacing := setting.letter_spacing * setting.scale_x
    let scaled_word_spacing := setting.word_spacing * setting.scale_x
    let gi := glyph_index font.glyph ch
    let glyph := gi.1
    let x1 := x - ((glyph.left + (glyph.width : Int) : Int) : real) * setting.scale_x
    let dc := _drawChar setting { font with glyph := gi.2 } x1 y ch
    let x2 := x1 - scaled_letter_spacing
    let x3 := if ch = space then x2 - scaled_word_spacing else x2
    let r := _drawLineR_loop setting dc.1 x3 y rest
    (r.1, dc.2 :: r.2)

/-- The method `draw_system::_drawLineR`: walks `line | std::views::reverse`. -/
def _drawLineR (setting : draw_setting) (font : font_data) (x y : real)
    (line : List wchar_t) : font_data × List draw_sprite_general :=
  _drawLineR_loop setting font x y line.reverse

/-- The pieces of `text | std::views::split('\n')` from a position inside a non-empty
text on: `cur` is the piece under construction. A delimiter closes the piece, the end of
the text closes the last piece (which is empty after a trailing delimiter). -/
def split_from (cur : List wchar_t) : List wchar_t → List (List wchar_t)
  | [] => [cur]
  | c :: cs => if c = newline then cur :: split_from [] cs else split_from (cur ++ [c]) cs

/-- The range `text | std::views::split('\n')`. For an empty text `begin()` already equals
`end()`, so the range has no piece at all. -/
def views_split (text : List wchar_t) : List (List wchar_t) :=
  match text with
  | [] => []
  | _ :: _ => split_from [] text

/-- The value `char_width` that the measured branch of `draw` computes for the character
`p` whose record is `glyph`. -/
def char_width (setting : draw_setting) (glyph : glyph_data) (p : wchar_t) : real :=
  let scaled_letter_spacing := setting.letter_spacing * setting.scale_x
  let scaled_word_spacing := setting.word_spacing * setting.scale_x
  let cw := ((glyph.left + (glyph.width : Int) : Int) : real) * setting.scale_x
    + scaled_letter_spacing
  if p = space then cw + scaled_word_spacing else cw

/-- The local state of the measured branch of `draw`: the font (its glyph map grows by the
lookups), `line_width`, the characters of `[begin, p)`, and the vectors `line` and
`offset`. -/
structure measure_state where
  font : font_data
  line_width : real
  cur : List wchar_t
  line : List (List wchar_t)
  offset : List real

/-- The `for (auto p{begin}; p != end; ++p)` loop of the measured branch of `draw`,
followed by the two statements after it that close the last line. -/
def measure_loop (setting : draw_setting) : measure_state → List wchar_t → measure_state
  | st, [] =>
    { st with
      offset := st.offset ++ [(setting.letter_spacing * setting.scale_x - st.line_width) / 2]
      line := st.line ++ [st.cur] }
  | st, p :: rest =>
    let scaled_max_line_width := setting.max_line_width * setting.scale_x
    let scaled_letter_spacing := setting.letter_spacing * setting.scale_x
    if p = newline then
      measure_loop setting
        { st with
          offset := st.offset ++ [(scaled_letter_spacing - st.line_width) / 2]
          line := st.line ++ [st.cur]
          line_width := 0
          cur := [] } rest
    else
      let gi := glyph_index st.font.glyph p
      let glyph := gi.1
      let font1 : font_data := { st.font with glyph := gi.2 }
      let cw := char_width setting glyph p
      if scaled_max_line_width = 0 ∨ st.line_width + cw ≤ scaled_max_line_width then
        measure_loop setting
          { st with
            font := font1
            line_width := st.line_width + cw
            cur := st.cur ++ [p] } rest
      else
        measure_loop setting
          { font := font1
            offset := st.offset ++ [(scaled_letter_spacing - st.line_width) / 2]
            line := st.line ++ [st.cur]
            line_width := cw
            cur := [p] } rest

/-- The line splitting of `draw` (the block that fills `line` and `offset`): the font
afterwards, the lines and the offsets. -/
def draw_split (setting : draw_setting) (font : font_data) (text : List wchar_t) :
    font_data × List (List wchar_t) × List real :=
  let scaled_max_line_width := setting.max_line_width * setting.scale_x
  if setting.halign ≠ 0 ∧ scaled_max_line_width = 0 then
    (font, views_split text, [])
  else
    let st := measure_loop setting ⟨font, 0, [], [], []⟩ text
    (st.font, st.line, st.offset)

/-- The loop `for (auto& i : line) { _drawLine(x, y, i); y += scaled_line_height; }`. -/
def draw_left (setting : draw_setting) (scaled_line_height x : real) :
    font_data → real → List (List wchar_t) → font_data × List draw_sprite_general
  | font, _, [] => (font, [])
  | font, y, i :: rest =>
    let r := _drawLine setting font x y i
    let r2 := draw_left setting scaled_line_height x r.1 (y + scaled_line_height) rest
    (r2.1, r.2 ++ r2.2)

/-- The loop of the centred branch: `q` walks the vector `offset` alongside the lines.
Reading `*q` past the end of `offset` is undefined in the source; the value `0` stands for
it here. -/
def draw_center (setting : draw_setting) (scaled_line_height x : real) :
    font_data → real → List real → List (List wchar_t) → font_data × List draw_sprite_general
  | font, _, _, [] => (font, [])
  | font, y, q, i :: rest =>
    let r := _drawLine setting font (x + q.headD 0) y i
    let r2 := draw_center setting scaled_line_height x r.1 (y + scaled_line_height) q.tail rest
    (r2.1, r.2 ++ r2.2)

/-- The loop `for (auto& i : line) { _drawLineR(x, y, i); y += scaled_line_height; }`. -/
def draw_right (setting : draw_setting) (scaled_line_height x : real) :
    font_data → real → List (List wchar_t) → font_data × List draw_sprite_general
  | font, _, [] => (font, [])
  | font, y, i :: rest =>
    let r := _drawLineR setting font x y i
    let r2 := draw_right setting scaled_line_height x r.1 (y + scaled_line_height) rest
    (r2.1, r.2 ++ r2.2)

/-- The starting ordinate of `draw`: `y += scaled_offset_y`, then the shift for the
vertical alignment. -/
def draw_start_y (setting : draw_setting) (scaled_line_height y : real) (lines : Nat) :
    real :=
  let scaled_offset_y := setting.offset_y * setting.scale_y
  let y1 := y + scaled_offset_y
  if setting.valign ≥ 0 then
    let text_height := scaled_line_height * (lines : real)
    y1 - (if setting.valign = 0 then text_height / 2 else text_height)
  else y1

/-- The method `draw_system::draw`: the result, the state afterwards and the calls of
`draw_sprite_general` issued, in order. -/
def draw (s : draw_system) (x y : real) (text : List wchar_t) :
    Bool × draw_system × List draw_sprite_general :=
  if !contains s._font s._setting.font_id then
    (false, s, [])
  else
    let setting := s._setting
    let font := font_at s._font setting.font_id
    let scaled_line_height := setting.line_height * setting.scale_y * (font.size : real)
    let scaled_offset_x := setting.offset_x * setting.scale_x
    let sp := draw_split setting font text
    let line := sp.2.1
    let offset := sp.2.2
    let x1 := x + scaled_offset_x
    let y1 := draw_start_y setting scaled_line_height y line.length
    let r :=
      if setting.halign < 0 then draw_left setting scaled_line_height x1 sp.1 y1 line
      else if setting.halign = 0 then
        draw_center setting scaled_line_height x1 sp.1 y1 offset line
      else draw_right setting scaled_line_height x1 sp.1 y1 line
    (true, { s with _font := s._font.set setting.font_id r.1 }, r.2)

/-! ## Read-only view of the layout

The operations above thread the font through every glyph lookup. What they compute depends
on the glyph map only through the records the lookups return; the functions below compute
the same results from that read-only view and serve the proofs. -/

/-- The record that `font.glyph[ch]` returns. -/
def glyph_get (m : glyph_map) (ch : wchar_t) : glyph_data :=
  (glyph_index m ch).1

/-- Two fonts that agree on everything `draw` reads: handle, sizes and the record returned
for every code. -/
def same_font (f f' : font_data) : Prop :=
  f'.sprite_id = f.sprite_id ∧ f'.size = f.size ∧ f'.glyph_height = f.glyph_height ∧
    glyph_get f'.glyph = glyph_get f.glyph

/-- The width of a character of the text in the font: `char_width` of its record. -/
def width_of (setting : draw_setting) (font : font_data) (ch : wchar_t) : real :=
  char_width setting (glyph_get font.glyph ch) ch

/-- The width of a line: the sum of the widths of its characters. -/
def line_width (setting : draw_setting) (font : font_data) (l : List wchar_t) : real :=
  (l.map (width_of setting font)).sum

/-- The calls `_drawLine` issues, computed without updating the font. -/
def line_calls (setting : draw_setting) (font : font_data) :
    real → real → List wchar_t → List draw_sprite_general
  | _, _, [] => []
  | x, y, ch :: rest =>
    (_drawChar setting font x y ch).2 ::
      line_calls setting font (x + width_of setting font ch) y rest

/-- The calls `_drawLineR_loop` issues, computed without updating the font. -/
def line_calls_R (setting : draw_setting) (font : font_data) :
    real → real → List wchar_t → List draw_sprite_general
  | _, _, [] => []
  | x, y, ch :: rest =>
    let g := glyph_get font.glyph ch
    (_drawChar setting font
        (x - ((g.left + (g.width : Int) : Int) : real) * setting.scale_x) y ch).2 ::
      line_calls_R setting font (x - width_of setting font ch) y rest

/-- The lines and offsets of the measured branch, computed without updating the font:
`lw` is `line_width` and `cur` the characters of the open line. -/
def measure_lines (setting : draw_setting) (font : font_data) :
    real → List wchar_t → List wchar_t → List (List wchar_t) × List real
  | lw, cur, [] => ([cur], [(setting.letter_spacing * setting.scale_x - lw) / 2])
  | lw, cur, p :: rest =>
    if p = newline then
      let r := measure_lines setting font 0 [] rest
      (cur :: r.1, (setting.letter_spacing * setting.scale_x - lw) / 2 :: r.2)
    else if setting.max_line_width * setting.scale_x = 0 ∨
        lw + width_of setting font p ≤ setting.max_line_width * setting.scale_x then
      measure_lines setting font (lw + width_of setting font p) (cur ++ [p]) rest
    else
      let r := measure_lines setting font (width_of setting font p) [p] rest
      (cur :: r.1, (setting.letter_spacing * setting.scale_x - lw) / 2 :: r.2)

/-- The calls of a loop `for (auto& i : items) { f(y, i); y += scaled_line_height; }`. -/
def block_calls {α : Type} (scaled_line_height : real)
    (f : real → α → List draw_sprite_general) : real → List α → List draw_sprite_general
  | _, [] => []
  | y, i :: rest => f y i ++ block_calls scaled_line_height f (y + scaled_line_height) rest

/-- The font `_font[_setting.font_id]` that `draw` works on. -/
def active_font (s : draw_system) : font_data :=
  font_at s._font s._setting.font_id

/-- The vector `line` that `draw` builds for a text. -/
def draw_lines (s : draw_system) (text : List wchar_t) : List (List wchar_t) :=
  (draw_split s._setting (active_font s) text).2.1

/-- The vector `offset` that `draw` builds for a text. -/
def draw_offsets (s : draw_system) (text : List wchar_t) : List real :=
  (draw_split s._setting (active_font s) text).2.2

/-- The value `scaled_line_height` of `draw`. -/
def line_advance (s : draw_system) : real :=
  s._setting.line_height * s._setting.scale_y * ((active_font s).size : real)

/-- The glyph table of the scenario of the spec: `'A'` at atlas (0,0), width 10, left bearing
0, and `'B'` at atlas (10,0), width 10, left bearing 0. -/
def scenario_glyphs : glyph_map := fun c =>
  if c = 65 then some ⟨0, 0, 10, 0⟩ else if c = 66 then some ⟨10, 0, 10, 0⟩ else none

/-- A draw system whose registry holds one font, of line size 20, with the glyph table of
the scenario, under the given settings. -/
def scenario_system (sprite_id glyph_height : Nat) (setting : draw_setting) : draw_system :=
  ⟨[⟨sprite_id, 20, glyph_height, scenario_glyphs⟩], setting⟩

/-- The scenario system with `max_line_width = 20` and `scale_x = 2`. -/
def scenario_wrap : draw_system :=
  scenario_system 7 16 { max_line_width := 20, scale_x := 2 }

/-! ## The setters of `src/gm.cpp`

The setters take arguments of type `Real`, a C `double`, and compare them with `<`, `<=`,
`>` and `==`. A `double` can be NaN, on which each of these comparisons is false, so here a
`double` is a number or NaN. The setters act on the settings object `draw.setting()`; it is
embedded as a record with the fields of `draw_setting` of `src/draw.h` that they assign.
Each setter returns its result and the settings afterwards. -/

/-- A C `double` as the setters compare it: a number, or NaN. -/
inductive double where
  | num (v : real)
  | nan
deriving DecidableEq

/-- The comparison `a < b` of two `double`: false as soon as one of them is NaN. -/
def double_lt : double → double → Bool
  | .num a, .num b => decide (a < b)
  | _, _ => false

/-- The comparison `a <= b` of two `double`: false as soon as one of them is NaN. -/
def double_le : double → double → Bool
  | .num a, .num b => decide (a ≤ b)
  | _, _ => false

/-- The comparison `a == b` of two `double`: false as soon as one of them is NaN. -/
def double_eq : double → double → Bool
  | .num a, .num b => decide (a = b)
  | _, _ => false

/-- The function `std::abs` on a `double`: NaN stays NaN. -/
def double_abs : double → double
  | .num a => .num |a|
  | .nan => .nan

/-- The settings object that the setters of `src/gm.cpp` assign, with the default member
initialisers of `draw_setting`. -/
structure gm_setting where
  font_id : Nat := 0
  color_top : Nat := 0xffffff
  color_bottom : Nat := 0xffffff
  alpha : double := .num 1
  halign : Int := -1
  valign : Int := -1
  max_line_width : double := .num 0
  letter_spacing : double := .num 0
  word_spacing : double := .num 0
  line_height : double := .num 1
  offset_x : double := .num 0
  offset_y : double := .num 0
  scale_x : double := .num 1
  scale_y : double := .num 1

/-- The conversion `static_cast<u32>(color)` of a `Real`: the value truncated, for a value
in the range of `u32`. Outside that range and for NaN the source is undefined; the embedding
wraps a number and yields 0 for NaN. -/
def u32_of_real : double → Nat
  | .num r => (Rat.floor r).toNat % 4294967296
  | .nan => 0

/-- The function `gm_set_color2`. -/
def gm_set_color2 (s : gm_setting) (color_top color_bottom : double) : Bool × gm_setting :=
  (true, { s with color_top := u32_of_real color_top
                  color_bottom := u32_of_real color_bottom })

/-- The function `gm_set_color`. -/
def gm_set_color (s : gm_setting) (color : double) : Bool × gm_setting :=
  gm_set_color2 s color color

/-- The function `gm_set_alpha`. -/
def gm_set_alpha (s : gm_setting) (alpha : double) : Bool × gm_setting :=
  if double_lt alpha (.num 0) || double_lt (.num 1) alpha then (false, s)
  else (true, { s with alpha := alpha })

/-- The function `gm_set_halign`. -/
def gm_set_halign (s : gm_setting) (align : double) : Bool × gm_setting :=
  let value : Int :=
    if double_eq align (.num 0) then 0 else if double_lt align (.num 0) then -1 else 1
  (true, { s with halign := value })

/-- The function `gm_set_valign`. -/
def gm_set_valign (s : gm_setting) (align : double) : Bool × gm_setting :=
  let value : Int :=
    if double_eq align (.num 0) then 0 else if double_lt align (.num 0) then -1 else 1
  (true, { s with valign := value })

/-- The function `gm_set_align`. -/
def gm_set_align (s : gm_setting) (halign valign : double) : Bool × gm_setting :=
  (true, (gm_set_valign (gm_set_halign s halign).2 valign).2)

/-- The function `gm_set_max_line_width`. -/
def gm_set_max_line_width (s : gm_setting) (max_width : double) : Bool × gm_setting :=
  if double_lt max_width (.num 0) then (false, s)
  else (true, { s with max_line_width := double_abs max_width })

/-- The function `gm_set_letter_spacing`. -/
def gm_set_letter_spacing (s : gm_setting) (spacing : double) : Bool × gm_setting :=
  (true, { s with letter_spacing := spacing })

/-- The function `gm_set_word_spacing`. -/
def gm_set_word_spacing (s : gm_setting) (spacing : double) : Bool × gm_setting :=
  (true, { s with word_spacing := spacing })

/-- The function `gm_set_line_height`. -/
def gm_set_line_height (s : gm_setting) (height : double) : Bool × gm_setting :=
  if double_le height (.num 0) then (false, s)
  else (true, { s with line_height := height })

/-- The function `gm_set_offset`. -/
def gm_set_offset (s : gm_setting) (x y : double) : Bool × gm_setting :=
  (true, { s with offset_x := x, offset_y := y })

/-- The function `gm_set_scale`. -/
def gm_set_scale (s : gm_setting) (x y : double) : Bool × gm_setting :=
  if double_le x (.num 0) || double_le y (.num 0) then (false, s)
  else (true, { s with scale_x := x, scale_y := y })

/-- One call of a setter, with its arguments. -/
inductive setter_call where
  | color (color : double)
  | color2 (color_top color_bottom : double)
  | alpha (alpha : double)
  | halign (align : double)
  | valign (align : double)
  | align (halign valign : double)
  | max_line_width (max_width : double)
  | letter_spacing (spacing : double)
  | word_spacing (spacing : double)
  | line_height (height : double)
  | offset (x y : double)
  | scale (x y : double)

/-- The arguments of a setter call. -/
def setter_args : setter_call → List double
  | .color c => [c]
  | .color2 t b => [t, b]
  | .alpha a => [a]
  | .halign a => [a]
  | .valign a => [a]
  | .align h v => [h, v]
  | .max_line_width w => [w]
  | .letter_spacing sp => [sp]
  | .word_spacing sp => [sp]
  | .line_height h => [h]
  | .offset x y => [x, y]
  | .scale x y => [x, y]

/-- The effect of one setter call on the settings. -/
def run_setter (s : gm_setting) : setter_call → Bool × gm_setting
  | .color c => gm_set_color s c
  | .color2 t b => gm_set_color2 s t b
  | .alpha a => gm_set_alpha s a
  | .halign a => gm_set_halign s a
  | .valign a => gm_set_valign s a
  | .align h v => gm_set_align s h v
  | .max_line_width w => gm_set_max_line_width s w
  | .letter_spacing sp => gm_set_letter_spacing s sp
  | .word_spacing sp => gm_set_word_spacing s sp
  | .line_height h => gm_set_line_height s h
  | .offset x y => gm_set_offset s x y
  | .scale x y => gm_set_scale s x y

/-- The settings after a sequence of setter calls. -/
def run_setters (s : gm_setting) (calls : List setter_call) : gm_setting :=
  calls.foldl (fun s c => (run_setter s c).2) s

/-- The invariant of the settings: `0 <= alpha <= 1`, alignments in {-1, 0, 1},
`max_line_width >= 0`, and `line_height > 0`, `scale_x > 0`, `scale_y > 0`, each comparison
being the comparison of `double`. -/
def setting_invariant (s : gm_setting) : Prop :=
  double_le (.num 0) s.alpha = true ∧ double_le s.alpha (.num 1) = true ∧
    (s.halign = -1 ∨ s.halign = 0 ∨ s.halign = 1) ∧
    (s.valign = -1 ∨ s.valign = 0 ∨ s.valign = 1) ∧
    double_le (.num 0) s.max_line_width = true ∧
    double_lt (.num 0) s.line_height = true ∧
    double_lt (.num 0) s.scale_x = true ∧ double_lt (.num 0) s.scale_y = true

/-- A glyph map that still has every entry of another one. -/
def keeps_entries (m m' : glyph_map) : Prop :=
  ∀ c g, m c = some g → m' c = some g

/-! ## Lookups leave the view unchanged -/

theorem glyph_get_index (m : glyph_map) (c : wchar_t) :
    glyph_get (glyph_index m c).2 = glyph_get m := by
  funext k
  unfold glyph_get glyph_index
  cases h : m c with
  | some g => rfl
  | none =>
    by_cases hk : k = c
    · subst hk
      simp [h]
    · simp only [hk, if_false]
      cases m k <;> rfl

theorem same_font_refl (f : font_data) : same_font f f :=
  ⟨rfl, rfl, rfl, rfl⟩

theorem same_font_trans {f g h : font_data} (h1 : same_font f g) (h2 : same_font g h) :
    same_font f h :=
  ⟨h2.1.trans h1.1, h2.2.1.trans h1.2.1, h2.2.2.1.trans h1.2.2.1, h2.2.2.2.trans h1.2.2.2⟩

theorem same_font_index (font : font_data) (c : wchar_t) :
    same_font font { font with glyph := (glyph_index font.glyph c).2 } :=
  ⟨rfl, rfl, rfl, glyph_get_index font.glyph c⟩

theorem same_font_width {setting : draw_setting} {f g : font_data} (h : same_font f g) :
    width_of setting g = width_of setting f := by
  funext c
  unfold width_of
  rw [h.2.2.2]

theorem drawChar_fst (setting : draw_setting) (font : font_data) (x y : real)
    (ch : wchar_t) : same_font font (_drawChar setting font x y ch).1 :=
  same_font_index font ch

theorem drawChar_congr (setting : draw_setting) {f g : font_data} (h : same_font f g)
    (x y : real) (ch : wchar_t) :
    (_drawChar setting g x y ch).2 = (_drawChar setting f x y ch).2 := by
  obtain ⟨h1, _, h3, h4⟩ := h
  have h5 : (glyph_index g.glyph ch).1 = (glyph_index f.glyph ch).1 := congrFun h4 ch
  simp only [_drawChar, h1, h3, h5]

theorem drawLine_spec (setting : draw_setting) (f0 : font_data) (l : List wchar_t) :
    ∀ (font : font_data) (x y : real), same_font f0 font →
      same_font f0 (_drawLine setting font x y l).1 ∧
        (_drawLine setting font x y l).2 = line_calls setting f0 x y l := by
  induction l with
  | nil => intro font x y h; exact ⟨h, rfl⟩
  | cons ch rest ih =>
    intro font x y h
    have h1 : same_font f0 { font with glyph := (glyph_index font.glyph ch).2 } :=
      same_font_trans h (same_font_index font ch)
    have h2 := same_font_trans h1 (drawChar_fst setting
      { font with glyph := (glyph_index font.glyph ch).2 } x y ch)
    have hg : (glyph_index font.glyph ch).1 = glyph_get f0.glyph ch := congrFun h.2.2.2 ch
    have hx : x + width_of setting f0 ch =
        (if ch = space then
          x + (((glyph_get f0.glyph ch).left + ((glyph_get f0.glyph ch).width : Int) : Int)
            : real) * setting.scale_x + setting.letter_spacing * setting.scale_x
            + setting.word_spacing * setting.scale_x
        else
          x + (((glyph_get f0.glyph ch).left + ((glyph_get f0.glyph ch).width : Int) : Int)
            : real) * setting.scale_x + setting.letter_spacing * setting.scale_x) := by
      unfold width_of char_width
      split_ifs <;> ring
    simp only [_drawLine, line_calls, hg]
    rw [← hx]
    obtain ⟨ih1, ih2⟩ := ih _ (x + width_of setting f0 ch) y h2
    exact ⟨ih1, by rw [ih2, drawChar_congr setting h1]⟩

theorem drawLineR_loop_spec (setting : draw_setting) (f0 : font_data) (l : List wchar_t) :
    ∀ (font : font_data) (x y : real), same_font f0 font →
      same_font f0 (_drawLineR_loop setting font x y l).1 ∧
        (_drawLineR_loop setting font x y l).2 = line_calls_R setting f0 x y l := by
  induction l with
  | nil => intro font x y h; exact ⟨h, rfl⟩
  | cons ch rest ih =>
    intro font x y h
    have h1 : same_font f0 { font with glyph := (glyph_index font.glyph ch).2 } :=
      same_font_trans h (same_font_index font ch)
    have hg : (glyph_index font.glyph ch).1 = glyph_get f0.glyph ch := congrFun h.2.2.2 ch
    have h2 := same_font_trans h1 (drawChar_fst setting
      { font with glyph := (glyph_index font.glyph ch).2 }
      (x - (((glyph_get f0.glyph ch).left + ((glyph_get f0.glyph ch).width : Int) : Int)
        : real) * setting.scale_x) y ch)
    have hx : x - width_of setting f0 ch =
        (if ch = space then
          x - (((glyph_get f0.glyph ch).left + ((glyph_get f0.glyph ch).width : Int) : Int)
            : real) * setting.scale_x - setting.letter_spacing * setting.scale_x
            - setting.word_spacing * setting.scale_x
        else
          x - (((glyph_get f0.glyph ch).left + ((glyph_get f0.glyph ch).width : Int) : Int)
            : real) * setting.scale_x - setting.letter_spacing * setting.scale_x) := by
      unfold width_of char_width
      split_ifs <;> ring
    simp only [_drawLineR_loop, line_calls_R, hg]
    rw [← hx]
    obtain ⟨ih1, ih2⟩ := ih _ (x - width_of setting f0 ch) y h2
    exact ⟨ih1, by rw [ih2, drawChar_congr setting h1]⟩

theorem measure_loop_spec (setting : draw_setting) (f0 : font_data) (text : List wchar_t) :
    ∀ st : measure_state, same_font f0 st.font →
      same_font f0 (measure_loop setting st text).font ∧
        (measure_loop setting st text).line =
          st.line ++ (measure_lines setting f0 st.line_width st.cur text).1 ∧
        (measure_loop setting st text).offset =
          st.offset ++ (measure_lines setting f0 st.line_width st.cur text).2 := by
  induction text with
  | nil => intro st h; exact ⟨h, rfl, rfl⟩
  | cons p rest ih =>
    intro st h
    have h1 : same_font f0 { st.font with glyph := (glyph_index st.font.glyph p).2 } :=
      same_font_trans h (same_font_index st.font p)
    have hg : (glyph_index st.font.glyph p).1 = glyph_get f0.glyph p := congrFun h.2.2.2 p
    have hw : char_width setting (glyph_get f0.glyph p) p = width_of setting f0 p := rfl
    simp only [measure_loop, measure_lines, hg, hw]
    split_ifs with hn hfit
    · obtain ⟨a, b, c⟩ := ih { st with
        offset := st.offset ++ [(setting.letter_spacing * setting.scale_x - st.line_width) / 2]
        line := st.line ++ [st.cur]
        line_width := 0
        cur := [] } h
      exact ⟨a, by rw [b]; simp, by rw [c]; simp⟩
    · exact ih { st with
        font := { st.font with glyph := (glyph_index st.font.glyph p).2 }
        line_width := st.line_width + width_of setting f0 p
        cur := st.cur ++ [p] } h1
    · obtain ⟨a, b, c⟩ := ih
        { font := { st.font with glyph := (glyph_index st.font.glyph p).2 }
          offset := st.offset ++
            [(setting.letter_spacing * setting.scale_x - st.line_width) / 2]
          line := st.line ++ [st.cur]
          line_width := width_of setting f0 p
          cur := [p] } h1
      exact ⟨a, by rw [b]; simp, by rw [c]; simp⟩

theorem draw_left_spec (setting : draw_setting) (slh x : real) (f0 : font_data)
    (lines : List (List wchar_t)) :
    ∀ (font : font_data) (y : real), same_font f0 font →
      same_font f0 (draw_left setting slh x font y lines).1 ∧
        (draw_left setting slh x font y lines).2 =
          block_calls slh (fun y l => line_calls setting f0 x y l) y lines := by
  induction lines with
  | nil => intro font y h; exact ⟨h, rfl⟩
  | cons l rest ih =>
    intro font y h
    obtain ⟨a, b⟩ := drawLine_spec setting f0 l font x y h
    obtain ⟨c, d⟩ := ih _ (y + slh) a
    exact ⟨c, by simp only [draw_left, block_calls, b, d]⟩

theorem draw_right_spec (setting : draw_setting) (slh x : real) (f0 : font_data)
    (lines : List (List wchar_t)) :
    ∀ (font : font_data) (y : real), same_font f0 font →
      same_font f0 (draw_right setting slh x font y lines).1 ∧
        (draw_right setting slh x font y lines).2 =
          block_calls slh (fun y l => line_calls_R setting f0 x y l.reverse) y lines := by
  induction lines with
  | nil => intro font y h; exact ⟨h, rfl⟩
  | cons l rest ih =>
    intro font y h
    obtain ⟨a, b⟩ := drawLineR_loop_spec setting f0 l.reverse font x y h
    obtain ⟨c, d⟩ := ih _ (y + slh) a
    exact ⟨c, by simp only [draw_right, _drawLineR, block_calls, b, d]⟩

theorem draw_center_spec (setting : draw_setting) (slh x : real) (f0 : font_data)
    (lines : List (List wchar_t)) :
    ∀ (font : font_data) (y : real) (q : List real), same_font f0 font →
      q.length = lines.length →
      same_font f0 (draw_center setting slh x font y q lines).1 ∧
        (draw_center setting slh x font y q lines).2 =
          block_calls slh (fun y ol => line_calls setting f0 (x + ol.1) y ol.2) y
            (q.zip lines) := by
  induction lines with
  | nil =>
    intro font y q h hq
    have : q = [] := List.length_eq_zero.mp hq
    subst this
    exact ⟨h, rfl⟩
  | cons l rest ih =>
    intro font y q h hq
    cases q with
    | nil => simp at hq
    | cons o q =>
      obtain ⟨a, b⟩ := drawLine_spec setting f0 l font (x + o) y h
      obtain ⟨c, d⟩ := ih _ (y + slh) q a (by simpa using hq)
      refine ⟨c, ?_⟩
      simp only [draw_center, List.headD_cons, List.tail_cons, b, d]
      rfl

theorem measure_lines_length (setting : draw_setting) (font : font_data)
    (text : List wchar_t) : ∀ (lw : real) (cur : List wchar_t),
      (measure_lines setting font lw cur text).2.length =
        (measure_lines setting font lw cur text).1.length := by
  induction text with
  | nil => intro lw cur; rfl
  | cons p rest ih =>
    intro lw cur
    simp only [measure_lines]
    split_ifs
    · simp [ih]
    · exact ih _ _
    · simp [ih]

theorem draw_split_same (setting : draw_setting) (font : font_data) (text : List wchar_t) :
    same_font font (draw_split setting font text).1 := by
  simp only [draw_split]
  split_ifs
  · exact same_font_refl font
  · exact (measure_loop_spec setting font text ⟨font, 0, [], [], []⟩ (same_font_refl font)).1

theorem draw_split_measured (setting : draw_setting) (font : font_data)
    (text : List wchar_t)
    (h : ¬ (setting.halign ≠ 0 ∧ setting.max_line_width * setting.scale_x = 0)) :
    (draw_split setting font text).2 = measure_lines setting font 0 [] text := by
  obtain ⟨_, b, c⟩ :=
    measure_loop_spec setting font text ⟨font, 0, [], [], []⟩ (same_font_refl font)
  simp only [draw_split, h, if_false]
  simp only [List.nil_append] at b c
  rw [b, c]

theorem draw_split_newline (setting : draw_setting) (font : font_data)
    (text : List wchar_t)
    (h : setting.halign ≠ 0 ∧ setting.max_line_width * setting.scale_x = 0) :
    (draw_split setting font text).2 = (views_split text, []) := by
  simp only [draw_split, h, and_self, ne_eq, not_false_eq_true, if_true]

theorem draw_offsets_length (s : draw_system) (text : List wchar_t)
    (h : s._setting.halign = 0) : (draw_offsets s text).length = (draw_lines s text).length := by
  unfold draw_offsets draw_lines
  rw [draw_split_measured _ _ _ (by simp [h])]
  exact measure_lines_length _ _ _ _ _

theorem draw_ret (s : draw_system) (x y : real) (text : List wchar_t) :
    (draw s x y text).1 = contains s._font s._setting.font_id := by
  unfold draw
  cases contains s._font s._setting.font_id <;> simp

theorem draw_calls_left (s : draw_system) (x y : real) (text : List wchar_t)
    (hc : contains s._font s._setting.font_id = true) (hl : s._setting.halign < 0) :
    (draw s x y text).2.2 =
      block_calls (line_advance s)
        (fun y l => line_calls s._setting (active_font s)
          (x + s._setting.offset_x * s._setting.scale_x) y l)
        (draw_start_y s._setting (line_advance s) y (draw_lines s text).length)
        (draw_lines s text) := by
  simp only [draw, hc, hl, Bool.not_true, Bool.false_eq_true, if_false, if_true]
  exact (draw_left_spec _ _ _ _ _ _ _ (draw_split_same _ _ _)).2

theorem draw_calls_center (s : draw_system) (x y : real) (text : List wchar_t)
    (hc : contains s._font s._setting.font_id = true) (hl : s._setting.halign = 0) :
    (draw s x y text).2.2 =
      block_calls (line_advance s)
        (fun y ol => line_calls s._setting (active_font s)
          (x + s._setting.offset_x * s._setting.scale_x + ol.1) y ol.2)
        (draw_start_y s._setting (line_advance s) y (draw_lines s text).length)
        ((draw_offsets s text).zip (draw_lines s text)) := by
  simp only [draw, hc, hl, Bool.not_true, Bool.false_eq_true, if_false, if_true,
    lt_self_iff_false]
  exact (draw_center_spec _ _ _ _ _ _ _ _ (draw_split_same _ _ _)
    (draw_offsets_length s text hl)).2

theorem draw_calls_right (s : draw_system) (x y : real) (text : List wchar_t)
    (hc : contains s._font s._setting.font_id = true) (hl : 0 < s._setting.halign) :
    (draw s x y text).2.2 =
      block_calls (line_advance s)
        (fun y l => line_calls_R s._setting (active_font s)
          (x + s._setting.offset_x * s._setting.scale_x) y l.reverse)
        (draw_start_y s._setting (line_advance s) y (draw_lines s text).length)
        (draw_lines s text) := by
  have h1 : ¬ s._setting.halign < 0 := by omega
  have h2 : ¬ s._setting.halign = 0 := by omega
  simp only [draw, hc, h1, h2, Bool.not_true, Bool.false_eq_true, if_false]
  exact (draw_right_spec _ _ _ _ _ _ _ (draw_split_same _ _ _)).2

/-! ## Facts about the calls of a block of lines -/

theorem block_calls_map {α β : Type} (slh : real)
    (f : real → α → List draw_sprite_general) (g : draw_sprite_general → β)
    (F : α → List β) (hf : ∀ y i, (f y i).map g = F i) (items : List α) :
    ∀ y, (block_calls slh f y items).map g = items.flatMap F := by
  induction items with
  | nil => intro y; rfl
  | cons i rest ih =>
    intro y
    simp only [block_calls, List.map_append, List.flatMap_cons, hf, ih]

theorem width_of_eq (setting : draw_setting) (font : font_data) (c : wchar_t) :
    width_of setting font c =
      (((glyph_get font.glyph c).left + ((glyph_get font.glyph c).width : Int) : Int) : real)
          * setting.scale_x
        + setting.letter_spacing * setting.scale_x
        + (if c = space then setting.word_spacing * setting.scale_x else 0) := by
  unfold width_of char_width
  split_ifs <;> ring

theorem line_calls_x (setting : draw_setting) (font : font_data) (y : real)
    (l : List wchar_t) : ∀ x : real,
      (line_calls setting font x y l).map (fun c => c.x) =
        (List.range l.length).map (fun i =>
          x + ((l.take i).map (width_of setting font)).sum
            + ((glyph_get font.glyph (l.getD i 0)).left : real) * setting.scale_x) := by
  induction l with
  | nil => intro x; rfl
  | cons ch rest ih =>
    intro x
    simp only [line_calls, List.map_cons, List.length_cons, List.range_succ_eq_map,
      List.map_map, ih]
    refine congrArg₂ List.cons ?_ ?_
    · simp [_drawChar, glyph_get]
    · apply List.map_congr_left
      intro i _
      simp only [Function.comp, Nat.succ_eq_add_one, List.take_succ_cons, List.map_cons,
        List.sum_cons, List.getD_cons_succ]
      ring

/-! ## C1: left-aligned placement -/

/-- C1. With a live active font and Left alignment (`halign < 0`), the destination x of the
calls of `draw` are, line by line and glyph by glyph, `x + offset_x*scale_x`, plus for every
earlier character of the line `(left + width)*scale_x + letter_spacing*scale_x` (and
`word_spacing*scale_x` if it is a space), plus `left*scale_x` of the glyph itself. For the
font of the scenario and default settings, `draw(0, 0, "AB")` issues exactly two calls: `A`
at destination (0,0), then `B` at destination (10,0). -/
theorem C1_left_aligned_placement (s : draw_system) (x y : real) (text : List wchar_t)
    (sprite_id glyph_height : Nat)
    (hc : contains s._font s._setting.font_id = true) (hl : s._setting.halign < 0) :
    (draw s x y text).2.2.map (fun c => c.x) =
        (draw_lines s text).flatMap (fun l => (List.range l.length).map (fun i =>
          x + s._setting.offset_x * s._setting.scale_x
            + ((l.take i).map (fun c =>
                (((glyph_get (active_font s).glyph c).left
                    + ((glyph_get (active_font s).glyph c).width : Int) : Int) : real)
                  * s._setting.scale_x
                + s._setting.letter_spacing * s._setting.scale_x
                + (if c = space then s._setting.word_spacing * s._setting.scale_x else 0))).sum
            + ((glyph_get (active_font s).glyph (l.getD i 0)).left : real)
                * s._setting.scale_x)) ∧
      (draw (scenario_system sprite_id glyph_height {}) 0 0 [65, 66]).2.2 =
        [⟨sprite_id, 0, 0, 0, 10, glyph_height, 0, 0, 1, 1, 0,
            0xffffff, 0xffffff, 0xffffff, 0xffffff, 1⟩,
         ⟨sprite_id, 0, 10, 0, 10, glyph_height, 10, 0, 1, 1, 0,
            0xffffff, 0xffffff, 0xffffff, 0xffffff, 1⟩] := by
  constructor
  · rw [draw_calls_left s x y text hc hl]
    have hw : (fun c =>
        (((glyph_get (active_font s).glyph c).left
            + ((glyph_get (active_font s).glyph c).width : Int) : Int) : real)
          * s._setting.scale_x
        + s._setting.letter_spacing * s._setting.scale_x
        + (if c = space then s._setting.word_spacing * s._setting.scale_x else 0)) =
        width_of s._setting (active_font s) := by
      funext c
      exact (width_of_eq _ _ c).symm
    rw [hw]
    exact block_calls_map _ _ _ _ (fun y l => line_calls_x _ _ y l _) _ _
  · simp [draw, contains, font_at, draw_split, views_split, split_from, newline,
      draw_start_y, draw_left, _drawLine, _drawChar, glyph_index, space, scenario_system,
      scenario_glyphs]

/-- Witness of C1: the scenario font, scale 2, letter spacing 1, the text `"AB\nB A"` drawn
at (3, 4). -/
theorem C1_left_aligned_placement_witness :
    contains (scenario_system 7 16 { scale_x := 2, letter_spacing := 1 })._font 0 = true ∧
      (draw (scenario_system 7 16 { scale_x := 2, letter_spacing := 1 }) 3 4
          [65, 66, 10, 66, 32, 65]).2.2.map (fun c => c.x) = [3, 25, 3, 25, 27] := by
  refine ⟨by decide, ?_⟩
  rw [(C1_left_aligned_placement (scenario_system 7 16 { scale_x := 2, letter_spacing := 1 })
    3 4 [65, 66, 10, 66, 32, 65] 7 16 (by decide) (by decide)).1]
  simp [draw_lines, draw_split, views_split, split_from, newline, space, active_font,
    font_at, scenario_system, scenario_glyphs, glyph_get, glyph_index, List.range_succ,
    glyph_zero]
  norm_num

/-! ## C2: one call per glyph -/

theorem split_from_flatten (text : List wchar_t) : ∀ cur : List wchar_t,
    (split_from cur text).flatten = cur ++ text.filter (fun c => decide (c ≠ newline)) := by
  induction text with
  | nil => intro cur; simp [split_from]
  | cons c cs ih =>
    intro cur
    by_cases h : c = newline
    · simp [split_from, h, ih]
    · simp [split_from, h, ih]

theorem views_split_flatten (text : List wchar_t) :
    (views_split text).flatten = text.filter (fun c => decide (c ≠ newline)) := by
  cases text with
  | nil => rfl
  | cons c cs => simpa [views_split] using split_from_flatten (c :: cs) []

theorem measure_lines_flatten (setting : draw_setting) (font : font_data)
    (text : List wchar_t) : ∀ (lw : real) (cur : List wchar_t),
      (measure_lines setting font lw cur text).1.flatten =
        cur ++ text.filter (fun c => decide (c ≠ newline)) := by
  induction text with
  | nil => intro lw cur; simp [measure_lines]
  | cons p rest ih =>
    intro lw cur
    simp only [measure_lines]
    split_ifs with hn hfit
    · simp [hn, ih]
    · simp [hn, ih]
    · simp [hn, ih]

theorem draw_lines_flatten (s : draw_system) (text : List wchar_t) :
    (draw_lines s text).flatten = text.filter (fun c => decide (c ≠ newline)) := by
  unfold draw_lines
  by_cases h : s._setting.halign ≠ 0 ∧ s._setting.max_line_width * s._setting.scale_x = 0
  · rw [draw_split_newline _ _ _ h]
    exact views_split_flatten text
  · rw [draw_split_measured _ _ _ h]
    simpa using measure_lines_flatten s._setting (active_font s) text 0 []

theorem line_calls_rect (setting : draw_setting) (font : font_data) (y : real)
    (l : List wchar_t) : ∀ x : real,
      (line_calls setting font x y l).map (fun c => (c.left, c.top, c.width, c.height)) =
        l.map (fun ch => ((glyph_get font.glyph ch).x, (glyph_get font.glyph ch).y,
          (glyph_get font.glyph ch).width, font.glyph_height)) := by
  induction l with
  | nil => intro x; rfl
  | cons ch rest ih =>
    intro x
    simp only [line_calls, List.map_cons, ih]
    rfl

theorem line_calls_R_rect (setting : draw_setting) (font : font_data) (y : real)
    (l : List wchar_t) : ∀ x : real,
      (line_calls_R setting font x y l).map (fun c => (c.left, c.top, c.width, c.height)) =
        l.map (fun ch => ((glyph_get font.glyph ch).x, (glyph_get font.glyph ch).y,
          (glyph_get font.glyph ch).width, font.glyph_height)) := by
  induction l with
  | nil => intro x; rfl
  | cons ch rest ih =>
    intro x
    simp only [line_calls_R, List.map_cons, ih]
    rfl

theorem flatMap_snd_zip {α β γ : Type} (f : β → List γ) (q : List α) (l : List β)
    (h : q.length = l.length) : (q.zip l).flatMap (fun ol => f ol.2) = l.flatMap f := by
  have h1 : (q.zip l).flatMap (fun ol => f ol.2) = ((q.zip l).map Prod.snd).flatMap f := by
    rw [List.flatMap_map]
  rw [h1, List.map_snd_zip _ _ (le_of_eq h.symm)]

theorem draw_calls_rect (s : draw_system) (x y : real) (text : List wchar_t)
    (hc : contains s._font s._setting.font_id = true) :
    (draw s x y text).2.2.map (fun c => (c.left, c.top, c.width, c.height)) =
      (if 0 < s._setting.halign then (draw_lines s text).flatMap List.reverse
        else (draw_lines s text).flatten).map
        (fun ch => ((glyph_get (active_font s).glyph ch).x,
          (glyph_get (active_font s).glyph ch).y,
          (glyph_get (active_font s).glyph ch).width, (active_font s).glyph_height)) := by
  rcases lt_trichotomy s._setting.halign 0 with hl | hl | hl
  · rw [draw_calls_left s x y text hc hl, if_neg (by omega),
      block_calls_map _ _ _ _ (fun y l => line_calls_rect _ _ y l _) _ _,
      List.flatMap_def, ← List.map_flatten]
  · rw [draw_calls_center s x y text hc hl, if_neg (by omega)]
    refine (block_calls_map (line_advance s) _ _
      (fun ol : real × List wchar_t => ol.2.map
        (fun ch => ((glyph_get (active_font s).glyph ch).x,
          (glyph_get (active_font s).glyph ch).y,
          (glyph_get (active_font s).glyph ch).width, (active_font s).glyph_height)))
      (fun y ol => line_calls_rect _ _ y ol.2 _) _ _).trans ?_
    rw [flatMap_snd_zip (fun l : List wchar_t => l.map
        (fun ch => ((glyph_get (active_font s).glyph ch).x,
          (glyph_get (active_font s).glyph ch).y,
          (glyph_get (active_font s).glyph ch).width, (active_font s).glyph_height)))
        _ _ (draw_offsets_length s text hl),
      List.flatMap_def, ← List.map_flatten]
  · rw [draw_calls_right s x y text hc hl, if_pos hl]
    refine (block_calls_map (line_advance s) _ _
      (fun l : List wchar_t => l.reverse.map
        (fun ch => ((glyph_get (active_font s).glyph ch).x,
          (glyph_get (active_font s).glyph ch).y,
          (glyph_get (active_font s).glyph ch).width, (active_font s).glyph_height)))
      (fun y l => line_calls_R_rect _ _ y l.reverse _) _ _).trans ?_
    rw [List.map_flatMap]

theorem draw_calls_length (s : draw_system) (x y : real) (text : List wchar_t)
    (hc : contains s._font s._setting.font_id = true) :
    (draw s x y text).2.2.length = (text.filter (fun c => decide (c ≠ newline))).length := by
  have hlen := congrArg List.length (draw_calls_rect s x y text hc)
  rw [List.length_map, List.length_map] at hlen
  rw [hlen, ← draw_lines_flatten s text]
  split_ifs
  · simp [List.length_flatMap, List.length_flatten, Function.comp_def]
  · rfl

/-- C2. With a live active font, `draw` issues as many calls as the text has characters
other than the line feed; the lines it builds, put end to end, are the text with every line
feed removed; and the source rectangles of the calls, in the order issued, are the atlas
`(x, y, width)` with the font's `glyph_height` of those characters in text order under Left
or Center alignment, and of the characters of each line reversed, line after line, under
Right alignment. -/
theorem C2_one_call_per_glyph (s : draw_system) (x y : real) (text : List wchar_t)
    (hc : contains s._font s._setting.font_id = true) :
    (draw s x y text).2.2.length = (text.filter (fun c => decide (c ≠ newline))).length ∧
      (draw_lines s text).flatten = text.filter (fun c => decide (c ≠ newline)) ∧
      (draw s x y text).2.2.map (fun c => (c.left, c.top, c.width, c.height)) =
        (if 0 < s._setting.halign then (draw_lines s text).flatMap List.reverse
          else text.filter (fun c => decide (c ≠ newline))).map
          (fun ch => ((glyph_get (active_font s).glyph ch).x,
            (glyph_get (active_font s).glyph ch).y,
            (glyph_get (active_font s).glyph ch).width, (active_font s).glyph_height)) := by
  have hr := draw_calls_rect s x y text hc
  have hf := draw_lines_flatten s text
  exact ⟨draw_calls_length s x y text hc, hf, by rw [hr, hf]⟩

/-- Witness of C2: the scenario font, Right alignment, the text `"AB\nB"`. -/
theorem C2_one_call_per_glyph_witness :
    contains (scenario_system 7 16 { halign := 1 })._font 0 = true ∧
      (draw (scenario_system 7 16 { halign := 1 }) 0 0 [65, 66, 10, 66]).2.2.length = 3 :=
  ⟨by decide,
    (C2_one_call_per_glyph (scenario_system 7 16 { halign := 1 }) 0 0 [65, 66, 10, 66]
      (by decide)).1.trans (by decide)⟩

/-! ## C3: width bound of wrapped lines -/

theorem line_width_append (setting : draw_setting) (font : font_data)
    (l : List wchar_t) (p : wchar_t) :
    line_width setting font (l ++ [p]) = line_width setting font l + width_of setting font p := by
  simp [line_width]

theorem measure_lines_bound (setting : draw_setting) (font : font_data) (M : real)
    (hM : setting.max_line_width * setting.scale_x = M) (hpos : 0 < M)
    (text : List wchar_t) : ∀ (lw : real) (cur : List wchar_t),
      lw = line_width setting font cur →
      (lw ≤ M ∨ ∃ c, cur = [c] ∧ M < width_of setting font c) →
      ∀ l ∈ (measure_lines setting font lw cur text).1,
        line_width setting font l ≤ M ∨ ∃ c, l = [c] ∧ M < width_of setting font c := by
  induction text with
  | nil =>
    intro lw cur hlw hI l hl
    simp only [measure_lines, List.mem_singleton] at hl
    subst hl
    rw [← hlw]
    exact hI
  | cons p rest ih =>
    intro lw cur hlw hI l hl
    have hclosed : line_width setting font cur ≤ M ∨
        ∃ c, cur = [c] ∧ M < width_of setting font c := by
      rw [← hlw]
      exact hI
    simp only [measure_lines, hM] at hl
    split_ifs at hl with hn hfit
    · rcases List.mem_cons.mp hl with h | h
      · rw [h]; exact hclosed
      · exact ih 0 [] (by simp [line_width]) (Or.inl hpos.le) l h
    · have hle : lw + width_of setting font p ≤ M := by
        rcases hfit with h | h
        · exact absurd h hpos.ne'
        · exact h
      exact ih _ _ (by rw [line_width_append, hlw]) (Or.inl hle) l hl
    · rcases List.mem_cons.mp hl with h | h
      · rw [h]; exact hclosed
      · refine ih _ [p] (by simp [line_width]) ?_ l h
        by_cases hw : width_of setting font p ≤ M
        · exact Or.inl hw
        · exact Or.inr ⟨p, rfl, lt_of_not_le hw⟩

theorem draw_lines_bound (s : draw_system) (text : List wchar_t)
    (hmax : 0 < s._setting.max_line_width) (hscale : 0 < s._setting.scale_x) :
    ∀ l ∈ draw_lines s text,
      line_width s._setting (active_font s) l
          ≤ s._setting.max_line_width * s._setting.scale_x ∨
        ∃ c, l = [c] ∧ s._setting.max_line_width * s._setting.scale_x
          < width_of s._setting (active_font s) c := by
  have hpos : 0 < s._setting.max_line_width * s._setting.scale_x := mul_pos hmax hscale
  intro l hl
  unfold draw_lines at hl
  rw [draw_split_measured _ _ _ (fun h => hpos.ne' h.2)] at hl
  exact measure_lines_bound s._setting (active_font s) _ rfl hpos text 0 []
    (by simp [line_width]) (Or.inl hpos.le) l hl

/-- C3, counterexample. With `max_line_width = 20` and `scale_x = 2` the text `"AB"` in the
scenario font is kept on one line of two glyphs whose width is 40: the line is wider than
`max_line_width` and is not a single glyph. -/
theorem C3_width_bound_counterexample :
    ¬ (∀ l ∈ draw_lines scenario_wrap [65, 66],
        (l.map (fun c => char_width scenario_wrap._setting
            (glyph_get (active_font scenario_wrap).glyph c) c)).sum
          ≤ scenario_wrap._setting.max_line_width ∨
        ∃ c, l = [c] ∧ scenario_wrap._setting.max_line_width
          < char_width scenario_wrap._setting
              (glyph_get (active_font scenario_wrap).glyph c) c) := by
  intro h
  have hL : draw_lines scenario_wrap [65, 66] = [[65, 66]] := by
    simp [draw_lines, draw_split, measure_loop, char_width, active_font, font_at,
      scenario_wrap, scenario_system, scenario_glyphs, glyph_index, newline, space]
    norm_num
  rcases h [65, 66] (by rw [hL]; exact List.mem_singleton_self _) with h1 | ⟨c, h2, _⟩
  · revert h1
    simp [char_width, active_font, font_at, scenario_wrap, scenario_system,
      scenario_glyphs, glyph_index, glyph_get, space]
    norm_num
  · simp at h2

/-- C3, amended. For `max_line_width > 0` and `scale_x > 0`, every line that the line
splitting of `draw` produces has width (the sum of the `char_width` of its characters) at
most `max_line_width * scale_x`, except a line that consists of a single glyph whose own
`char_width` exceeds `max_line_width * scale_x`. -/
theorem C3_width_bound_scaled (s : draw_system) (text : List wchar_t)
    (hmax : 0 < s._setting.max_line_width) (hscale : 0 < s._setting.scale_x) :
    ∀ l ∈ draw_lines s text,
      (l.map (fun c => char_width s._setting (glyph_get (active_font s).glyph c) c)).sum
          ≤ s._setting.max_line_width * s._setting.scale_x ∨
        ∃ c, l = [c] ∧ s._setting.max_line_width * s._setting.scale_x
          < char_width s._setting (glyph_get (active_font s).glyph c) c :=
  draw_lines_bound s text hmax hscale

/-- Witness of C3: `max_line_width = 20`, `scale_x = 2`, the text `"ABA"`, whose first line
is `"AB"`. -/
theorem C3_width_bound_scaled_witness :
    0 < scenario_wrap._setting.max_line_width ∧ 0 < scenario_wrap._setting.scale_x ∧
      ((([65, 66] : List wchar_t).map (fun c => char_width scenario_wrap._setting
          (glyph_get (active_font scenario_wrap).glyph c) c)).sum
          ≤ scenario_wrap._setting.max_line_width * scenario_wrap._setting.scale_x ∨
        ∃ c, ([65, 66] : List wchar_t) = [c] ∧
          scenario_wrap._setting.max_line_width * scenario_wrap._setting.scale_x
            < char_width scenario_wrap._setting
                (glyph_get (active_font scenario_wrap).glyph c) c) :=
  ⟨by norm_num [scenario_wrap, scenario_system],
    by norm_num [scenario_wrap, scenario_system],
    C3_width_bound_scaled scenario_wrap [65, 66, 65]
      (by norm_num [scenario_wrap, scenario_system])
      (by norm_num [scenario_wrap, scenario_system]) [65, 66] (by
        have hL : draw_lines scenario_wrap [65, 66, 65] = [[65, 66], [65]] := by
          simp [draw_lines, draw_split, measure_loop, char_width, active_font, font_at,
            scenario_wrap, scenario_system, scenario_glyphs, glyph_index, newline, space]
          norm_num
        rw [hL]
        exact List.mem_cons_self _ _)⟩

/-! ## C4: the two splitting branches -/

theorem measure_lines_unbounded (setting : draw_setting) (font : font_data)
    (h0 : setting.max_line_width * setting.scale_x = 0) (text : List wchar_t) :
    ∀ (lw : real) (cur : List wchar_t),
      (measure_lines setting font lw cur text).1 = split_from cur text := by
  induction text with
  | nil => intro lw cur; rfl
  | cons p rest ih =>
    intro lw cur
    simp only [measure_lines, split_from, h0, true_or, if_true]
    split_ifs
    · rw [ih]
    · exact ih _ _

/-- The two branches agree on every text that is not empty: when `max_line_width * scale_x`
is 0, the pieces of `text | std::views::split('\n')` are the lines of the measured
branch. -/
theorem mode_equivalence_nonempty (setting : draw_setting) (font : font_data)
    (text : List wchar_t) (h0 : setting.max_line_width * setting.scale_x = 0)
    (hne : text ≠ []) :
    views_split text = (measure_loop setting ⟨font, 0, [], [], []⟩ text).line := by
  obtain ⟨_, b, _⟩ :=
    measure_loop_spec setting font text ⟨font, 0, [], [], []⟩ (same_font_refl font)
  rw [b, measure_lines_unbounded setting font h0]
  cases text with
  | nil => exact absurd rfl hne
  | cons c cs => rfl

/-- C4, at the failing input. For the empty text the newline-only branch produces no line
at all, while the measured branch (under any settings, so also with `max_line_width = 0`)
produces one empty line: the two line lists differ. -/
theorem C4_mode_equivalence_empty_text (setting : draw_setting) (font : font_data) :
    views_split [] = [] ∧ (measure_loop setting ⟨font, 0, [], [], []⟩ []).line = [[]] ∧
      views_split [] ≠ (measure_loop setting ⟨font, 0, [], [], []⟩ []).line := by
  refine ⟨rfl, rfl, ?_⟩
  simp [views_split, measure_loop]

/-! ## C5: the empty text -/

/-- C5, with the failing input. With a live active font `draw(x, y, "")` returns true and
issues no call. The line list it builds has one empty line in the measured branch, but no
line at all in the newline-only branch (`halign != 0` and `max_line_width * scale_x == 0`,
as under the default settings), where the text height is therefore 0 and not one line
height. -/
theorem C5_empty_text (s : draw_system) (x y : real)
    (hc : contains s._font s._setting.font_id = true) :
    (draw s x y []).1 = true ∧ (draw s x y []).2.2 = [] ∧
      draw_lines s [] =
        (if s._setting.halign ≠ 0 ∧ s._setting.max_line_width * s._setting.scale_x = 0
          then [] else [[]]) ∧
      (draw_lines (scenario_system 7 16 {}) []).length = 0 := by
  refine ⟨by rw [draw_ret, hc], ?_, ?_, ?_⟩
  · exact List.eq_nil_of_length_eq_zero (by rw [draw_calls_length s x y [] hc]; rfl)
  · unfold draw_lines
    split_ifs with h
    · rw [draw_split_newline _ _ _ h]
      rfl
    · rw [draw_split_measured _ _ _ h]
      rfl
  · simp [draw_lines, draw_split, views_split, scenario_system]

/-- Witness of C5: the scenario system under the default settings. -/
theorem C5_empty_text_witness :
    contains (scenario_system 7 16 {})._font (scenario_system 7 16 {})._setting.font_id = true ∧
      (draw (scenario_system 7 16 {}) 0 0 []).1 = true ∧
      (draw (scenario_system 7 16 {}) 0 0 []).2.2 = [] :=
  ⟨by decide, (C5_empty_text (scenario_system 7 16 {}) 0 0 (by decide)).1,
    (C5_empty_text (scenario_system 7 16 {}) 0 0 (by decide)).2.1⟩

/-! ## C6: right-aligned placement -/

theorem block_calls_append {α : Type} (slh : real)
    (f : real → α → List draw_sprite_general) (a b : List α) :
    ∀ y, block_calls slh f y (a ++ b) =
      block_calls slh f y a ++ block_calls slh f (y + (a.length : real) * slh) b := by
  induction a with
  | nil => intro y; simp [block_calls]
  | cons i rest ih =>
    intro y
    have hy : y + slh + (rest.length : real) * slh =
        y + ((rest.length + 1 : Nat) : real) * slh := by
      push_cast
      ring
    show f y i ++ block_calls slh f (y + slh) (rest ++ b) = _
    rw [ih, hy]
    simp only [block_calls, List.append_assoc, List.length_cons]

theorem block_calls_length (slh : real)
    (f : real → List wchar_t → List draw_sprite_general)
    (hf : ∀ y l, (f y l).length = l.length) (items : List (List wchar_t)) :
    ∀ y, (block_calls slh f y items).length = items.flatten.length := by
  induction items with
  | nil => intro y; rfl
  | cons i rest ih =>
    intro y
    simp only [block_calls, List.length_append, List.flatten_cons, hf, ih]

theorem line_calls_R_length (setting : draw_setting) (font : font_data) (x y : real)
    (l : List wchar_t) : (line_calls_R setting font x y l).length = l.length := by
  have h := congrArg List.length (line_calls_R_rect setting font y l x)
  simpa using h

theorem line_calls_length (setting : draw_setting) (font : font_data) (x y : real)
    (l : List wchar_t) : (line_calls setting font x y l).length = l.length := by
  have h := congrArg List.length (line_calls_rect setting font y l x)
  simpa using h

/-- C6. With a live active font, Right alignment (`halign > 0`) and `offset_x = 0`: in the
calls of `draw`, the first call of every non-empty line (after the calls of the lines
before it) is the glyph of the last character of the line, and its right edge, destination
x plus `width*scale_x`, is the `x` passed to `draw`. For the scenario font, `"AB"` drawn at
x = 100 gives `B` at 90 (right edge 100), then `A` at 80 (right edge 90, where the advance
of `B` begins). -/
theorem C6_right_aligned_placement (s : draw_system) (x y : real) (text : List wchar_t)
    (sprite_id glyph_height : Nat)
    (hc : contains s._font s._setting.font_id = true) (hr : 0 < s._setting.halign)
    (hox : s._setting.offset_x = 0) :
    (∀ (pre post : List (List wchar_t)) (init : List wchar_t) (ch : wchar_t),
        draw_lines s text = pre ++ (init ++ [ch]) :: post →
        ∃ c rest, (draw s x y text).2.2.drop pre.flatten.length = c :: rest ∧
          (c.left, c.top, c.width) = ((glyph_get (active_font s).glyph ch).x,
            (glyph_get (active_font s).glyph ch).y,
            (glyph_get (active_font s).glyph ch).width) ∧
          c.x + (c.width : real) * s._setting.scale_x = x) ∧
      (draw (scenario_system sprite_id glyph_height { halign := 1 }) 100 0 [65, 66]).2.2 =
        [⟨sprite_id, 0, 10, 0, 10, glyph_height, 90, 0, 1, 1, 0,
            0xffffff, 0xffffff, 0xffffff, 0xffffff, 1⟩,
         ⟨sprite_id, 0, 0, 0, 10, glyph_height, 80, 0, 1, 1, 0,
            0xffffff, 0xffffff, 0xffffff, 0xffffff, 1⟩] := by
  constructor
  · intro pre post init ch hlines
    rw [draw_calls_right s x y text hc hr, hlines, block_calls_append]
    have hlen : (block_calls (line_advance s)
        (fun y l => line_calls_R s._setting (active_font s)
          (x + s._setting.offset_x * s._setting.scale_x) y l.reverse)
        (draw_start_y s._setting (line_advance s) y
          (pre ++ (init ++ [ch]) :: post).length) pre).length = pre.flatten.length :=
      block_calls_length _ _ (fun y l => by rw [line_calls_R_length, List.length_reverse]) _ _
    rw [List.drop_left' hlen]
    simp only [block_calls, List.reverse_append, List.reverse_cons, List.reverse_nil,
      List.nil_append, List.singleton_append, line_calls_R, List.cons_append]
    refine ⟨_, _, rfl, rfl, ?_⟩
    simp only [_drawChar, glyph_get, hox]
    push_cast
    ring
  · simp [draw, contains, font_at, draw_split, views_split, split_from, newline,
      draw_start_y, draw_right, _drawLineR, _drawLineR_loop, _drawChar, glyph_index, space,
      scenario_system, scenario_glyphs]
    norm_num

/-- Witness of C6: the scenario font, Right alignment, scale 3, the text `"A\nAB"` drawn at
x = 100: the second line starts after the one call of the first line, with `B`. -/
theorem C6_right_aligned_placement_witness :
    contains (scenario_system 7 16 { halign := 1, scale_x := 3 })._font 0 = true ∧
      ∃ c rest, (draw (scenario_system 7 16 { halign := 1, scale_x := 3 }) 100 0
          [65, 10, 65, 66]).2.2.drop 1 = c :: rest ∧ c.x + (c.width : real) * 3 = 100 := by
  refine ⟨by decide, ?_⟩
  obtain ⟨c, rest, h1, _, h3⟩ :=
    (C6_right_aligned_placement (scenario_system 7 16 { halign := 1, scale_x := 3 }) 100 0
      [65, 10, 65, 66] 7 16 (by decide) (by decide) rfl).1 [[65]] [] [65] 66 (by
        simp [draw_lines, draw_split, views_split, split_from, newline, scenario_system])
  exact ⟨c, rest, h1, h3⟩

/-! ## C7: vertical placement -/

theorem line_calls_y (setting : draw_setting) (font : font_data) (y : real)
    (l : List wchar_t) : ∀ x : real,
      (line_calls setting font x y l).map (fun c => c.y) = List.replicate l.length y := by
  induction l with
  | nil => intro x; rfl
  | cons ch rest ih =>
    intro x
    simp only [line_calls, List.map_cons, ih, List.length_cons, List.replicate_succ]
    rfl

theorem line_calls_R_y (setting : draw_setting) (font : font_data) (y : real)
    (l : List wchar_t) : ∀ x : real,
      (line_calls_R setting font x y l).map (fun c => c.y) = List.replicate l.length y := by
  induction l with
  | nil => intro x; rfl
  | cons ch rest ih =>
    intro x
    simp only [line_calls_R, List.map_cons, ih, List.length_cons, List.replicate_succ]
    rfl

theorem block_calls_y {α : Type} (slh y0 : real)
    (f : real → α → List draw_sprite_general) (len : α → Nat)
    (hf : ∀ y i, (f y i).map (fun c => c.y) = List.replicate (len i) y) (items : List α) :
    ∀ n : Nat, (block_calls slh f (y0 + (n : real) * slh) items).map (fun c => c.y) =
      ((items.map len).enumFrom n).flatMap
        (fun kn => List.replicate kn.2 (y0 + (kn.1 : real) * slh)) := by
  induction items with
  | nil => intro n; rfl
  | cons i rest ih =>
    intro n
    have hy : y0 + (n : real) * slh + slh = y0 + ((n + 1 : Nat) : real) * slh := by
      push_cast
      ring
    simp only [block_calls, List.map_append, hf, List.map_cons, List.enumFrom_cons,
      List.flatMap_cons, hy, ih]

theorem draw_calls_y (s : draw_system) (x y : real) (text : List wchar_t)
    (hc : contains s._font s._setting.font_id = true) :
    (draw s x y text).2.2.map (fun c => c.y) =
      (((draw_lines s text).map List.length).enum).flatMap (fun kn =>
        List.replicate kn.2
          (draw_start_y s._setting (line_advance s) y (draw_lines s text).length
            + (kn.1 : real) * line_advance s)) := by
  have h0 : ∀ y0 : real, y0 = y0 + ((0 : Nat) : real) * line_advance s := by
    intro y0
    simp
  rcases lt_trichotomy s._setting.halign 0 with hl | hl | hl
  · rw [draw_calls_left s x y text hc hl, h0 (draw_start_y _ _ _ _),
      block_calls_y _ _ _ List.length (fun y l => line_calls_y _ _ y l _)]
    simp [List.enum]
  · rw [draw_calls_center s x y text hc hl, h0 (draw_start_y _ _ _ _),
      block_calls_y _ _ _ (fun ol : real × List wchar_t => ol.2.length)
        (fun y ol => line_calls_y _ _ y ol.2 _)]
    have hz : ((draw_offsets s text).zip (draw_lines s text)).map
        (fun ol : real × List wchar_t => ol.2.length) = (draw_lines s text).map List.length := by
      have h1 : ((draw_offsets s text).zip (draw_lines s text)).map
          (fun ol : real × List wchar_t => ol.2.length) =
          (((draw_offsets s text).zip (draw_lines s text)).map Prod.snd).map List.length := by
        rw [List.map_map]
        rfl
      rw [h1, List.map_snd_zip _ _ (le_of_eq (draw_offsets_length s text hl).symm)]
    rw [hz]
    simp [List.enum]
  · rw [draw_calls_right s x y text hc hl, h0 (draw_start_y _ _ _ _),
      block_calls_y _ _ _ List.length (fun y l => by
        rw [line_calls_R_y, List.length_reverse])]
    simp [List.enum]

/-- C7. With a live active font, whatever the alignments, every glyph of line `k` (counted
from 0) is drawn at destination `y + offset_y*scale_y - v + k*H`, where
`H = line_height*scale_y*font.size`, `n` is the number of lines, and `v` is 0 for Top
(`valign < 0`), `n*H/2` for Middle (`valign = 0`) and `n*H` for Bottom (`valign > 0`):
the destination y of the calls are, line after line, that value once per character of the
line. -/
theorem C7_vertical_placement (s : draw_system) (x y : real) (text : List wchar_t)
    (H : real)
    (hc : contains s._font s._setting.font_id = true)
    (hH : H = s._setting.line_height * s._setting.scale_y * ((active_font s).size : real)) :
    (draw s x y text).2.2.map (fun c => c.y) =
      (((draw_lines s text).map List.length).enum).flatMap (fun kn =>
        List.replicate kn.2
          (y + s._setting.offset_y * s._setting.scale_y
            - (if s._setting.valign < 0 then 0
                else if s._setting.valign = 0 then ((draw_lines s text).length : real) * H / 2
                else ((draw_lines s text).length : real) * H)
            + (kn.1 : real) * H)) := by
  have hH2 : H = line_advance s := hH
  rw [draw_calls_y s x y text hc, hH2]
  have hy : draw_start_y s._setting (line_advance s) y (draw_lines s text).length =
      y + s._setting.offset_y * s._setting.scale_y
        - (if s._setting.valign < 0 then 0
            else if s._setting.valign = 0 then
              ((draw_lines s text).length : real) * line_advance s / 2
            else ((draw_lines s text).length : real) * line_advance s) := by
    unfold draw_start_y
    by_cases h1 : s._setting.valign < 0
    · simp [h1, not_le.mpr h1]
    · by_cases h2 : s._setting.valign = 0
      · simp [h2]
        ring
      · simp [h1, h2, not_lt.mp h1]
        ring
  rw [hy]

/-- Witness of C7: the scenario font (line size 20), Bottom alignment, line height 3/2, the
text `"A\nAB"` drawn at y = 100: two lines of height 30, so the first line is at 40 and the
second at 70. -/
theorem C7_vertical_placement_witness :
    contains (scenario_system 7 16 { valign := 1, line_height := 3 / 2 })._font 0 = true ∧
      (draw (scenario_system 7 16 { valign := 1, line_height := 3 / 2 }) 0 100
        [65, 10, 65, 66]).2.2.map (fun c => c.y) = [40, 70, 70] := by
  refine ⟨by decide, ?_⟩
  rw [C7_vertical_placement (scenario_system 7 16 { valign := 1, line_height := 3 / 2 })
    0 100 [65, 10, 65, 66] 30 (by decide)
    (by norm_num [active_font, font_at, scenario_system])]
  simp [draw_lines, draw_split, views_split, split_from, newline, scenario_system, List.enum,
    List.enumFrom]
  norm_num

/-! ## C8: `draw` fails exactly when no font is active -/

/-- C8. `draw` returns false if and only if the registry does not contain the settings'
font id, that is the id is out of range or the slot has line size 0; in that case it issues
no call and leaves the registry and the settings as they were; otherwise it returns true. -/
theorem C8_draw_fails_iff_no_font (s : draw_system) (x y : real) (text : List wchar_t) :
    ((draw s x y text).1 = false ↔ contains s._font s._setting.font_id = false) ∧
      (contains s._font s._setting.font_id = false ↔
        (s._font.length ≤ s._setting.font_id ∨
          (font_at s._font s._setting.font_id).size = 0)) ∧
      (contains s._font s._setting.font_id = false →
        (draw s x y text).2.2 = [] ∧ (draw s x y text).2.1 = s) ∧
      (contains s._font s._setting.font_id = true → (draw s x y text).1 = true) := by
  refine ⟨by rw [draw_ret], ?_, ?_, ?_⟩
  · unfold contains
    rw [Bool.and_eq_false_iff]
    simp
  · intro h
    simp [draw, h]
  · intro h
    rw [draw_ret, h]

/-- Witness of C8: an empty registry. -/
theorem C8_draw_fails_iff_no_font_witness :
    contains ([] : List font_data) 0 = false ∧
      (draw ⟨[], {}⟩ 0 0 [65]).1 = false ∧ (draw ⟨[], {}⟩ 0 0 [65]).2.2 = [] :=
  ⟨by decide,
    (C8_draw_fails_iff_no_font ⟨[], {}⟩ 0 0 [65]).1.mpr (by decide),
    ((C8_draw_fails_iff_no_font ⟨[], {}⟩ 0 0 [65]).2.2.1 (by decide)).1⟩

/-! ## The metrics file: `font_system::add` -/

theorem add_valid_header (api : gm_api) (fonts : List font_data) (path : String)
    (junk : indeterminate) (s0 s1 h0 h1 : Nat) (rest : List Nat)
    (hs : u16_at [s0, s1] 0 ≠ 0) (hh : u16_at [h0, h1] 0 ≠ 0) :
    add api fonts path (some ([71, 76, 89, 0] ++ [s0, s1, h0, h1] ++ rest)) junk =
      (true, fonts ++ [⟨api.sprite_add path, u16_at [s0, s1] 0, u16_at [h0, h1] 0,
          add_loop junk (rest.length + 1) 0 ⟨rest, false⟩ (fun _ => none)⟩],
        [host_call.sprite_add path 1 false false 0 0]) := by
  have e1 : ifstream_read (ifstream_open (some ([71, 76, 89, 0] ++ [s0, s1, h0, h1] ++ rest)))
      4 junk.magic = ([71, 76, 89, 0], ⟨[s0, s1, h0, h1] ++ rest, false⟩) := by
    simp [ifstream_open, ifstream_read]
  have e2 : ifstream_read ⟨[s0, s1, h0, h1] ++ rest, false⟩ 2 junk.size =
      ([s0, s1], ⟨[h0, h1] ++ rest, false⟩) := by
    simp [ifstream_read]
  have e3 : ifstream_read ⟨[h0, h1] ++ rest, false⟩ 2 junk.glyph_height =
      ([h0, h1], ⟨rest, false⟩) := by
    simp [ifstream_read]
  unfold add
  simp only [e1, e2, e3]
  have e4 : strcmp_GLY [71, 76, 89, 0] = true := by decide
  simp [e4, hs, hh]

theorem add_loop_fail (junk : indeterminate) (fuel k : Nat) (file : ifstream)
    (m : glyph_map) (h : file.fail = true) : add_loop junk fuel k file m = m := by
  cases fuel with
  | zero => rfl
  | succ n => simp [add_loop, h]

theorem ifstream_read_fail (file : ifstream) (n : Nat) (buf : List Nat)
    (h : file.fail = true) : ifstream_read file n buf = (buf, file) := by
  simp [ifstream_read, h]

theorem ifstream_read_good (file : ifstream) (n : Nat) (buf : List Nat)
    (h : (ifstream_read file n buf).2.fail = false) :
    (ifstream_read file n buf).2.data.length + n = file.data.length := by
  unfold ifstream_read at h ⊢
  by_cases hf : file.fail = true
  · simp [hf] at h
  · by_cases hn : n ≤ file.data.length
    · simp [hf, hn]
    · simp [hf, hn] at h

/-- The record loop never runs out of fuel: with more passes allowed than the stream has
bytes, allowing still more passes does not change what the loop computes. -/
theorem add_loop_fuel (junk : indeterminate) : ∀ (fuel k : Nat) (file : ifstream)
    (m : glyph_map) (extra : Nat), file.data.length < fuel →
      add_loop junk (fuel + extra) k file m = add_loop junk fuel k file m := by
  intro fuel
  induction fuel with
  | zero => intro k file m extra h; omega
  | succ n ih =>
    intro k file m extra h
    have hfuel : n + 1 + extra = (n + extra) + 1 := by omega
    rw [hfuel]
    by_cases hf : file.fail = true
    · rw [add_loop_fail _ _ _ _ _ hf, add_loop_fail _ _ _ _ _ hf]
    · simp only [add_loop, hf, Bool.false_eq_true, if_false]
      by_cases h2 : (ifstream_read (ifstream_read file 2 (junk.ch k)).2 8
          (junk.glyph k)).2.fail = true
      · rw [add_loop_fail _ _ _ _ _ h2, add_loop_fail _ _ _ _ _ h2]
      · have h2f := Bool.eq_false_iff.mpr h2
        have a := ifstream_read_good _ _ _ h2f
        have h1f : (ifstream_read file 2 (junk.ch k)).2.fail = false := by
          by_contra hc
          have hc1 : (ifstream_read file 2 (junk.ch k)).2.fail = true := by
            simpa using hc
          have : (ifstream_read (ifstream_read file 2 (junk.ch k)).2 8
              (junk.glyph k)).2.fail = true := by
            rw [ifstream_read_fail _ _ _ hc1]
            exact hc1
          exact h2 this
        have b := ifstream_read_good _ _ _ h1f
        exact ih _ _ _ _ (by omega)

theorem ifstream_read_prefix (r t buf : List Nat) (n : Nat) (h : n ≤ r.length) :
    ifstream_read ⟨r ++ t, false⟩ n buf = (r.take n, ⟨r.drop n ++ t, false⟩) := by
  have h1 : n ≤ (r ++ t).length := by
    rw [List.length_append]
    omega
  unfold ifstream_read
  simp only [Bool.false_eq_true, if_false, h1, if_true,
    List.take_append_of_le_length h, List.drop_append_of_le_length h]

/-- What the record loop computes on a glyph table of complete records: the records are
stored in file order, a later record for a code replacing an earlier one, and then one more
pass stores the indeterminate `glyph` under the indeterminate `ch`. -/
theorem add_loop_records (junk : indeterminate) (recs : List (List Nat))
    (hrec : ∀ r ∈ recs, r.length = 10) : ∀ (fuel k : Nat) (m : glyph_map),
      recs.length < fuel →
      add_loop junk fuel k ⟨recs.flatten, false⟩ m =
        fun c => if c = u16_at (junk.ch (k + recs.length)) 0
          then some (glyph_of_bytes (junk.glyph (k + recs.length)))
          else recs.foldl
            (fun t r c => if c = u16_at r 0 then some (glyph_of_bytes (r.drop 2)) else t c)
            m c := by
  induction recs with
  | nil =>
    intro fuel k m hf
    obtain ⟨n, rfl⟩ : ∃ n, fuel = n + 1 := ⟨fuel - 1, by simp at hf; omega⟩
    simp [add_loop, ifstream_read, add_loop_fail]
  | cons r rs ih =>
    intro fuel k m hf
    obtain ⟨n, rfl⟩ : ∃ n, fuel = n + 1 := ⟨fuel - 1, by simp at hf; omega⟩
    have hr : r.length = 10 := hrec r (List.mem_cons_self _ _)
    have e1 := ifstream_read_prefix r rs.flatten (junk.ch k) 2 (by omega)
    have e2 := ifstream_read_prefix (r.drop 2) rs.flatten (junk.glyph k) 8
      (by rw [List.length_drop]; omega)
    have e3 : (r.drop 2).take 8 = r.drop 2 :=
      List.take_of_length_le (by rw [List.length_drop]; omega)
    have e4 : (r.drop 2).drop 8 = [] :=
      List.drop_of_length_le (by rw [List.length_drop]; omega)
    have e5 : u16_at (r.take 2) 0 = u16_at r 0 := by
      match r, hr with
      | [b0, b1, b2, b3, b4, b5, b6, b7, b8, b9], _ => rfl
    rw [e3, e4, List.nil_append] at e2
    simp only [add_loop, List.flatten_cons, Bool.false_eq_true, if_false, e1, e2, e5,
      List.foldl_cons, List.length_cons]
    rw [ih (fun r' hr' => hrec r' (List.mem_cons_of_mem _ hr')) n (k + 1) _
      (by simpa using hf)]
    have hk : k + 1 + rs.length = k + (rs.length + 1) := by omega
    rw [hk]

/-- What `add` does with a well-formed file of complete records: it succeeds and appends a
slot with the declared sizes whose glyph table holds the records of the file, last record
of a code winning, overwritten by the one assignment of the extra pass. -/
theorem add_complete_records (api : gm_api) (fonts : List font_data) (path : String)
    (junk : indeterminate) (s0 s1 h0 h1 : Nat) (recs : List (List Nat))
    (hs : u16_at [s0, s1] 0 ≠ 0) (hh : u16_at [h0, h1] 0 ≠ 0)
    (hrec : ∀ r ∈ recs, r.length = 10) :
    add api fonts path (some ([71, 76, 89, 0] ++ [s0, s1, h0, h1] ++ recs.flatten)) junk =
      (true, fonts ++ [⟨api.sprite_add path, u16_at [s0, s1] 0, u16_at [h0, h1] 0,
          fun c => if c = u16_at (junk.ch recs.length) 0
            then some (glyph_of_bytes (junk.glyph recs.length))
            else recs.foldl
              (fun t r c => if c = u16_at r 0 then some (glyph_of_bytes (r.drop 2)) else t c)
              (fun _ => none) c⟩],
        [host_call.sprite_add path 1 false false 0 0]) := by
  rw [add_valid_header api fonts path junk s0 s1 h0 h1 recs.flatten hs hh,
    add_loop_records junk recs hrec _ 0 _ (by
      have h := List.length_flatten recs
      have h2 : (recs.map List.length).sum = 10 * recs.length := by
        clear h
        induction recs with
        | nil => rfl
        | cons r rs ih =>
          simp only [List.map_cons, List.sum_cons, List.length_cons]
          rw [ih (fun r' hr' => hrec r' (List.mem_cons_of_mem _ hr')),
            hrec r (List.mem_cons_self _ _)]
          omega
      omega)]
  simp

/-! ## C9: round trip of the metrics file -/

/-- C9, at the failing input. For the file that holds the signature, line size 20, glyph
height 16 and no record at all, `add` succeeds and appends a slot of line size 20 and glyph
height 16, but its glyph table is not empty: the record loop is entered once with the stream
still good, both reads fail, and `font.glyph[ch] = glyph` stores the indeterminate `glyph`
under the indeterminate code `ch`. -/
theorem C9_round_trip_no_record_file (api : gm_api) (fonts : List font_data)
    (path : String) (junk : indeterminate) :
    add api fonts path (some [71, 76, 89, 0, 20, 0, 16, 0]) junk =
        (true, fonts ++ [⟨api.sprite_add path, 20, 16, fun c =>
          if c = u16_at (junk.ch 0) 0 then some (glyph_of_bytes (junk.glyph 0)) else none⟩],
          [host_call.sprite_add path 1 false false 0 0]) ∧
      (fun c => if c = u16_at (junk.ch 0) 0 then some (glyph_of_bytes (junk.glyph 0))
        else none) ≠ (fun _ : wchar_t => (none : Option glyph_data)) := by
  constructor
  · simp [add, ifstream_open, ifstream_read, strcmp_GLY, u16_at, add_loop]
  · intro h
    have := congrFun h (u16_at (junk.ch 0) 0)
    simp at this

/-! ## C10: a truncated glyph table -/

/-- C10, counterexample. The file with a valid header followed by five bytes (half a
record) is accepted: `add` returns true and the registry has one slot more. -/
theorem C10_truncated_counterexample :
    ¬ ((add ⟨fun _ => 7⟩ [] "font.png"
          (some [71, 76, 89, 0, 20, 0, 16, 0, 65, 0, 1, 0, 2])
          ⟨[0, 0, 0, 0], [0, 0], [0, 0], fun _ => [0, 0],
            fun _ => [0, 0, 0, 0, 0, 0, 0, 0]⟩).1 = false ∧
        (add ⟨fun _ => 7⟩ [] "font.png"
          (some [71, 76, 89, 0, 20, 0, 16, 0, 65, 0, 1, 0, 2])
          ⟨[0, 0, 0, 0], [0, 0], [0, 0], fun _ => [0, 0],
            fun _ => [0, 0, 0, 0, 0, 0, 0, 0]⟩).2.1.length = 0) := by
  have h := add_valid_header ⟨fun _ => 7⟩ [] "font.png"
    ⟨[0, 0, 0, 0], [0, 0], [0, 0], fun _ => [0, 0], fun _ => [0, 0, 0, 0, 0, 0, 0, 0]⟩
    20 0 16 0 [65, 0, 1, 0, 2] (by decide) (by decide)
  simp only [List.cons_append, List.nil_append] at h
  rw [h]
  simp

/-- C10, amended. A truncated glyph table is not rejected: for every metrics file with a
valid signature, a non-zero line size and a non-zero glyph height whose glyph table ends in
the middle of a 10-byte record, `add` returns true and appends exactly one slot, which is
live and has the declared line size and glyph height; the slots before it are unchanged. -/
theorem C10_truncated_accepted (api : gm_api) (fonts : List font_data) (path : String)
    (junk : indeterminate) (s0 s1 h0 h1 : Nat) (rest : List Nat)
    (hs : u16_at [s0, s1] 0 ≠ 0) (hh : u16_at [h0, h1] 0 ≠ 0)
    (htrunc : rest.length % 10 ≠ 0) :
    (add api fonts path (some ([71, 76, 89, 0] ++ [s0, s1, h0, h1] ++ rest)) junk).1 = true ∧
      ∃ slot : font_data,
        (add api fonts path
          (some ([71, 76, 89, 0] ++ [s0, s1, h0, h1] ++ rest)) junk).2.1 = fonts ++ [slot] ∧
        slot.size = u16_at [s0, s1] 0 ∧ slot.glyph_height = u16_at [h0, h1] 0 ∧
        contains (fonts ++ [slot]) fonts.length = true := by
  have _ := htrunc
  rw [add_valid_header api fonts path junk s0 s1 h0 h1 rest hs hh]
  refine ⟨rfl, _, rfl, rfl, rfl, ?_⟩
  simp [contains, font_at, hs]

/-- Witness of C10: line size 20, glyph height 16, then five bytes of a record. -/
theorem C10_truncated_accepted_witness :
    u16_at [20, 0] 0 ≠ 0 ∧ u16_at [16, 0] 0 ≠ 0 ∧
      ([65, 0, 1, 0, 2] : List Nat).length % 10 ≠ 0 ∧
      (add ⟨fun _ => 7⟩ [] "font.png"
        (some ([71, 76, 89, 0] ++ [20, 0, 16, 0] ++ [65, 0, 1, 0, 2]))
        ⟨[0, 0, 0, 0], [0, 0], [0, 0], fun _ => [0, 0],
          fun _ => [0, 0, 0, 0, 0, 0, 0, 0]⟩).1 = true :=
  ⟨by decide, by decide, by decide,
    (C10_truncated_accepted ⟨fun _ => 7⟩ [] "font.png"
      ⟨[0, 0, 0, 0], [0, 0], [0, 0], fun _ => [0, 0], fun _ => [0, 0, 0, 0, 0, 0, 0, 0]⟩
      20 0 16 0 [65, 0, 1, 0, 2] (by decide) (by decide) (by decide)).1⟩

/-! ## C11: a bad header -/

theorem add_bad_magic (api : gm_api) (fonts : List font_data) (path : String)
    (junk : indeterminate) (file : List Nat) (hlen : 4 ≤ file.length)
    (hmagic : file.take 4 ≠ [71, 76, 89, 0]) :
    add api fonts path (some file) junk = (false, fonts, []) := by
  have e1 : (ifstream_read (ifstream_open (some file)) 4 junk.magic).1 = file.take 4 := by
    simp [ifstream_open, ifstream_read, hlen]
  have e2 : strcmp_GLY (file.take 4) = false := by
    simp only [strcmp_GLY, List.take_take, min_self, decide_eq_false_iff_not]
    exact hmagic
  simp [add, e1, e2]

theorem add_zero_size (api : gm_api) (fonts : List font_data) (path : String)
    (junk : indeterminate) (s0 s1 : Nat) (rest : List Nat)
    (hs : u16_at [s0, s1] 0 = 0) :
    add api fonts path (some ([71, 76, 89, 0] ++ s0 :: s1 :: rest)) junk =
      (false, fonts, [host_call.sprite_add path 1 false false 0 0]) := by
  have e1 : ifstream_read (ifstream_open (some ([71, 76, 89, 0] ++ s0 :: s1 :: rest)))
      4 junk.magic = ([71, 76, 89, 0], ⟨s0 :: s1 :: rest, false⟩) := by
    simp [ifstream_open, ifstream_read]
  have e2 : ifstream_read ⟨s0 :: s1 :: rest, false⟩ 2 junk.size =
      ([s0, s1], ⟨rest, false⟩) := by
    simp [ifstream_read]
  have e4 : strcmp_GLY [71, 76, 89, 0] = true := by decide
  unfold add
  simp only [e1, e2]
  simp [e4, hs]

theorem add_zero_glyph_height (api : gm_api) (fonts : List font_data) (path : String)
    (junk : indeterminate) (s0 s1 h0 h1 : Nat) (rest : List Nat)
    (hh : u16_at [h0, h1] 0 = 0) :
    add api fonts path (some ([71, 76, 89, 0] ++ [s0, s1, h0, h1] ++ rest)) junk =
      (false, fonts, [host_call.sprite_add path 1 false false 0 0]) := by
  have e1 : ifstream_read (ifstream_open (some ([71, 76, 89, 0] ++ [s0, s1, h0, h1] ++ rest)))
      4 junk.magic = ([71, 76, 89, 0], ⟨[s0, s1, h0, h1] ++ rest, false⟩) := by
    simp [ifstream_open, ifstream_read]
  have e2 : ifstream_read ⟨[s0, s1, h0, h1] ++ rest, false⟩ 2 junk.size =
      ([s0, s1], ⟨[h0, h1] ++ rest, false⟩) := by
    simp [ifstream_read]
  have e3 : ifstream_read ⟨[h0, h1] ++ rest, false⟩ 2 junk.glyph_height =
      ([h0, h1], ⟨rest, false⟩) := by
    simp [ifstream_read]
  have e4 : strcmp_GLY [71, 76, 89, 0] = true := by decide
  unfold add
  simp only [e1, e2, e3]
  simp [e4, hh]

/-- C11. For every metrics file whose first four bytes are not `'G','L','Y',NUL`, or whose
declared line size is 0, or whose declared glyph height is 0, `add` returns false and the
registry it returns is the registry it was given. -/
theorem C11_bad_header_rejected (api : gm_api) (fonts : List font_data) (path : String)
    (junk : indeterminate) :
    (∀ file : List Nat, 4 ≤ file.length → file.take 4 ≠ [71, 76, 89, 0] →
        (add api fonts path (some file) junk).1 = false ∧
          (add api fonts path (some file) junk).2.1 = fonts) ∧
      (∀ (s0 s1 : Nat) (rest : List Nat), u16_at [s0, s1] 0 = 0 →
        (add api fonts path (some ([71, 76, 89, 0] ++ s0 :: s1 :: rest)) junk).1 = false ∧
          (add api fonts path (some ([71, 76, 89, 0] ++ s0 :: s1 :: rest)) junk).2.1
            = fonts) ∧
      (∀ (s0 s1 h0 h1 : Nat) (rest : List Nat), u16_at [h0, h1] 0 = 0 →
        (add api fonts path
            (some ([71, 76, 89, 0] ++ [s0, s1, h0, h1] ++ rest)) junk).1 = false ∧
          (add api fonts path
            (some ([71, 76, 89, 0] ++ [s0, s1, h0, h1] ++ rest)) junk).2.1 = fonts) := by
  refine ⟨?_, ?_, ?_⟩
  · intro file hlen hmagic
    rw [add_bad_magic api fonts path junk file hlen hmagic]
    exact ⟨rfl, rfl⟩
  · intro s0 s1 rest hs
    rw [add_zero_size api fonts path junk s0 s1 rest hs]
    exact ⟨rfl, rfl⟩
  · intro s0 s1 h0 h1 rest hh
    rw [add_zero_glyph_height api fonts path junk s0 s1 h0 h1 rest hh]
    exact ⟨rfl, rfl⟩

/-- Witness of C11: the file `"GLX"`, NUL, then a header, is rejected. -/
theorem C11_bad_header_rejected_witness :
    4 ≤ ([71, 76, 88, 0, 20, 0, 16, 0] : List Nat).length ∧
      ([71, 76, 88, 0, 20, 0, 16, 0] : List Nat).take 4 ≠ [71, 76, 89, 0] ∧
      (add ⟨fun _ => 7⟩ [] "font.png" (some [71, 76, 88, 0, 20, 0, 16, 0])
        ⟨[0, 0, 0, 0], [0, 0], [0, 0], fun _ => [0, 0],
          fun _ => [0, 0, 0, 0, 0, 0, 0, 0]⟩).1 = false :=
  ⟨by decide, by decide,
    ((C11_bad_header_rejected ⟨fun _ => 7⟩ [] "font.png"
      ⟨[0, 0, 0, 0], [0, 0], [0, 0], fun _ => [0, 0], fun _ => [0, 0, 0, 0, 0, 0, 0, 0]⟩).1
      [71, 76, 88, 0, 20, 0, 16, 0] (by decide) (by decide)).1⟩

/-! ## C12: sprite creation -/

/-- C12, with the failing input. When `add` returns true it has called `sprite_add` exactly
once, with the sprite path, 1, false, false, 0, 0, and a file with a bad signature causes
no call. But a file with a valid signature and a zero line size or a zero glyph height, such
as the signature followed by line size 0 and glyph height 16, is rejected after the sprite
was created: `add` returns false and has called `sprite_add` once. -/
theorem C12_sprite_created_before_header_check (api : gm_api) (fonts : List font_data)
    (path : String) (junk : indeterminate) :
    (∀ content, (add api fonts path content junk).1 = true →
        (add api fonts path content junk).2.2 =
          [host_call.sprite_add path 1 false false 0 0]) ∧
      (∀ file : List Nat, 4 ≤ file.length → file.take 4 ≠ [71, 76, 89, 0] →
        (add api fonts path (some file) junk).2.2 = []) ∧
      add api fonts path (some [71, 76, 89, 0, 0, 0, 16, 0]) junk =
        (false, fonts, [host_call.sprite_add path 1 false false 0 0]) ∧
      (∀ (s0 s1 h0 h1 : Nat) (rest : List Nat),
        u16_at [s0, s1] 0 = 0 ∨ u16_at [h0, h1] 0 = 0 →
        add api fonts path (some ([71, 76, 89, 0] ++ [s0, s1, h0, h1] ++ rest)) junk =
          (false, fonts, [host_call.sprite_add path 1 false false 0 0])) := by
  refine ⟨?_, ?_, ?_, ?_⟩
  · intro content h
    unfold add at h ⊢
    simp only at h ⊢
    split_ifs at h ⊢
    all_goals simp_all
  · intro file hlen hmagic
    rw [add_bad_magic api fonts path junk file hlen hmagic]
  · exact add_zero_size api fonts path junk 0 0 [16, 0] (by decide)
  · intro s0 s1 h0 h1 rest h
    rcases h with h | h
    · exact add_zero_size api fonts path junk s0 s1 (h0 :: h1 :: rest) h
    · exact add_zero_glyph_height api fonts path junk s0 s1 h0 h1 rest h

/-! ## C13: unload -/

theorem contains_iff (fonts : List font_data) (id : Nat) :
    contains fonts id = true ↔ id < fonts.length ∧ (font_at fonts id).size ≠ 0 := by
  simp [contains]

theorem font_at_set_self (fonts : List font_data) (id : Nat) (f : font_data)
    (h : id < fonts.length) : font_at (fonts.set id f) id = f := by
  simp [font_at, List.getD_eq_getElem?_getD, h]

theorem font_at_set_other (fonts : List font_data) (id j : Nat) (f : font_data)
    (h : j ≠ id) : font_at (fonts.set id f) j = font_at fonts j := by
  simp [font_at, List.getD_eq_getElem?_getD, List.getElem?_set_ne (Ne.symm h)]

/-- C13. `remove(id)` returns true if and only if `id` names a live font. When it returns
false the registry is returned as it was and no sprite is deleted. When it returns true it
calls `sprite_delete` exactly once, for the sprite of that slot; afterwards `contains(id)`
is false, the slot count is the same, every other slot is what it was, and a second
`remove(id)` returns false. -/
theorem C13_unload (fonts : List font_data) (id : Nat) :
    ((remove fonts id).1 = true ↔ contains fonts id = true) ∧
      ((remove fonts id).1 = false →
        (remove fonts id).2.1 = fonts ∧ (remove fonts id).2.2 = []) ∧
      ((remove fonts id).1 = true →
        (remove fonts id).2.2 = [host_call.sprite_delete (font_at fonts id).sprite_id] ∧
          contains (remove fonts id).2.1 id = false ∧
          (remove fonts id).2.1.length = fonts.length ∧
          (∀ j, j ≠ id → (remove fonts id).2.1[j]? = fonts[j]?) ∧
          (∀ j, j ≠ id → contains (remove fonts id).2.1 j = contains fonts j) ∧
          (remove (remove fonts id).2.1 id).1 = false) := by
  by_cases hc : contains fonts id = true
  · have hlt : id < fonts.length := ((contains_iff fonts id).mp hc).1
    have hr : remove fonts id =
        (true, fonts.set id { font_at fonts id with size := 0, glyph := fun _ => none },
          [host_call.sprite_delete (font_at fonts id).sprite_id]) := by
      simp [remove, hc]
    have hnot : contains (fonts.set id
        { font_at fonts id with size := 0, glyph := fun _ => none }) id = false := by
      simp [contains, font_at_set_self _ _ _ hlt]
    rw [hr]
    refine ⟨by simp [hc], by simp, fun _ => ⟨rfl, hnot, by simp, ?_, ?_, ?_⟩⟩
    · intro j hj
      exact List.getElem?_set_ne (Ne.symm hj)
    · intro j hj
      simp [contains, font_at_set_other _ _ _ _ hj]
    · simp [remove, hnot]
  · have hc2 : contains fonts id = false := by simpa using hc
    have hr : remove fonts id = (false, fonts, []) := by
      simp [remove, hc2]
    rw [hr]
    exact ⟨by simp [hc2], fun _ => ⟨rfl, rfl⟩, fun h => by simp at h⟩

/-- Witness of C13: the one live font of the scenario registry is removed; removing an id
out of range fails. -/
theorem C13_unload_witness :
    (remove (scenario_system 7 16 {})._font 0).1 = true ∧
      (remove (scenario_system 7 16 {})._font 0).2.2 = [host_call.sprite_delete 7] ∧
      (remove (scenario_system 7 16 {})._font 1).1 = false ∧
      (remove (scenario_system 7 16 {})._font 1).2.2 = [] :=
  ⟨by decide,
    ((C13_unload (scenario_system 7 16 {})._font 0).2.2 (by decide)).1,
    by decide,
    ((C13_unload (scenario_system 7 16 {})._font 1).2.1 (by decide)).2⟩

/-! ## C14: clear -/

/-- C14, with the failing input. After `clear()` no id is contained, and `clear()` calls
`sprite_delete` once for every slot of the registry in order, whether the slot is live or
not. For the registry that held the scenario font and had it removed, `remove` has deleted
sprite 7 and `clear()` deletes sprite 7 once more, although the slot is not live. -/
theorem C14_clear_deletes_every_slot (fonts : List font_data) :
    (∀ id, contains (clear fonts).1 id = false) ∧
      (clear fonts).2 = fonts.map (fun f => host_call.sprite_delete f.sprite_id) ∧
      contains (remove (scenario_system 7 16 {})._font 0).2.1 0 = false ∧
      (remove (scenario_system 7 16 {})._font 0).2.2 = [host_call.sprite_delete 7] ∧
      (clear (remove (scenario_system 7 16 {})._font 0).2.1).2 =
        [host_call.sprite_delete 7] := by
  refine ⟨?_, rfl, by decide, by decide, by decide⟩
  intro id
  simp [clear, contains]

/-! ## C16: the settings invariant -/

theorem run_setter_invariant (s : gm_setting) (c : setter_call)
    (hn : ∀ a ∈ setter_args c, a ≠ double.nan)
    (h : setting_invariant s) : setting_invariant (run_setter s c).2 := by
  obtain ⟨h1, h2, h3, h4, h5, h6, h7, h8⟩ := h
  cases c with
  | color c => exact ⟨h1, h2, h3, h4, h5, h6, h7, h8⟩
  | color2 t b => exact ⟨h1, h2, h3, h4, h5, h6, h7, h8⟩
  | alpha a =>
    cases a with
    | nan => exact absurd rfl (hn _ (List.mem_singleton_self _))
    | num v =>
      simp only [run_setter, gm_set_alpha, double_lt, Bool.or_eq_true, decide_eq_true_eq]
      split_ifs with ha
      · exact ⟨h1, h2, h3, h4, h5, h6, h7, h8⟩
      · rw [not_or, not_lt, not_lt] at ha
        exact ⟨by simp [double_le, ha.1], by simp [double_le, ha.2], h3, h4, h5, h6, h7, h8⟩
  | halign a =>
    refine ⟨h1, h2, ?_, h4, h5, h6, h7, h8⟩
    simp only [run_setter, gm_set_halign]
    split_ifs <;> simp
  | valign a =>
    refine ⟨h1, h2, h3, ?_, h5, h6, h7, h8⟩
    simp only [run_setter, gm_set_valign]
    split_ifs <;> simp
  | align a b =>
    refine ⟨h1, h2, ?_, ?_, h5, h6, h7, h8⟩
    · simp only [run_setter, gm_set_align, gm_set_valign, gm_set_halign]
      split_ifs <;> simp
    · simp only [run_setter, gm_set_align, gm_set_valign, gm_set_halign]
      split_ifs <;> simp
  | max_line_width w =>
    cases w with
    | nan => exact absurd rfl (hn _ (List.mem_singleton_self _))
    | num v =>
      simp only [run_setter, gm_set_max_line_width, double_lt, decide_eq_true_eq]
      split_ifs with hw
      · exact ⟨h1, h2, h3, h4, h5, h6, h7, h8⟩
      · exact ⟨h1, h2, h3, h4, by simp [double_le, double_abs], h6, h7, h8⟩
  | letter_spacing sp => exact ⟨h1, h2, h3, h4, h5, h6, h7, h8⟩
  | word_spacing sp => exact ⟨h1, h2, h3, h4, h5, h6, h7, h8⟩
  | line_height v =>
    cases v with
    | nan => exact absurd rfl (hn _ (List.mem_singleton_self _))
    | num v =>
      simp only [run_setter, gm_set_line_height, double_le, decide_eq_true_eq]
      split_ifs with hv
      · exact ⟨h1, h2, h3, h4, h5, h6, h7, h8⟩
      · exact ⟨h1, h2, h3, h4, h5, by simp [double_lt, not_le.mp hv], h7, h8⟩
  | offset x y => exact ⟨h1, h2, h3, h4, h5, h6, h7, h8⟩
  | scale x y =>
    cases x with
    | nan => exact absurd rfl (hn _ (List.mem_cons_self _ _))
    | num vx =>
      cases y with
      | nan => exact absurd rfl (hn _ (List.mem_cons_of_mem _ (List.mem_singleton_self _)))
      | num vy =>
        simp only [run_setter, gm_set_scale, double_le, Bool.or_eq_true, decide_eq_true_eq]
        split_ifs with hv
        · exact ⟨h1, h2, h3, h4, h5, h6, h7, h8⟩
        · rw [not_or, not_le, not_le] at hv
          exact ⟨h1, h2, h3, h4, h5, h6, by simp [double_lt, hv.1], by simp [double_lt, hv.2]⟩

theorem run_setters_invariant (calls : List setter_call) :
    ∀ s : gm_setting, (∀ c ∈ calls, ∀ a ∈ setter_args c, a ≠ double.nan) →
      setting_invariant s → setting_invariant (run_setters s calls) := by
  induction calls with
  | nil => intro s _ h; exact h
  | cons c rest ih =>
    intro s hn h
    exact ih _ (fun c' hc' => hn c' (List.mem_cons_of_mem _ hc'))
      (run_setter_invariant s c (hn c (List.mem_cons_self _ _)) h)

theorem run_setter_false (s : gm_setting) (c : setter_call)
    (h : (run_setter s c).1 = false) : (run_setter s c).2 = s := by
  cases c with
  | alpha a =>
    simp only [run_setter, gm_set_alpha] at h ⊢
    split_ifs at h ⊢
    rfl
  | max_line_width w =>
    simp only [run_setter, gm_set_max_line_width] at h ⊢
    split_ifs at h ⊢
    rfl
  | line_height v =>
    simp only [run_setter, gm_set_line_height] at h ⊢
    split_ifs at h ⊢
    rfl
  | scale x y =>
    simp only [run_setter, gm_set_scale] at h ⊢
    split_ifs at h ⊢
    rfl
  | _ => simp [run_setter, gm_set_color, gm_set_color2, gm_set_halign, gm_set_valign,
      gm_set_align, gm_set_letter_spacing, gm_set_word_spacing, gm_set_offset] at h

/-- C16, with the failing input. On the default settings `gm_set_alpha(NaN)` returns true
and stores NaN in `alpha`, after which `0 <= alpha` is false: the guard
`alpha < 0 || alpha > 1` is false on NaN. In the same way `gm_set_max_line_width(NaN)`,
`gm_set_line_height(NaN)` and `gm_set_scale(NaN, 1)` return true and store NaN, so
`max_line_width >= 0`, `line_height > 0` and `scale_x > 0` are false afterwards. What the
setters do keep: after any sequence of calls none of whose arguments is NaN, starting from
the default settings, `0 <= alpha <= 1`, `halign` and `valign` are each one of -1, 0, 1,
`max_line_width >= 0`, `line_height > 0`, `scale_x > 0` and `scale_y > 0`; and a call that
returns false, whatever its arguments, leaves every field unchanged. -/
theorem C16_setters_store_nan (calls : List setter_call) :
    (gm_set_alpha {} double.nan = (true, { alpha := double.nan }) ∧
        double_le (.num 0) (gm_set_alpha {} double.nan).2.alpha = false) ∧
      (gm_set_max_line_width {} double.nan = (true, { max_line_width := double.nan }) ∧
        double_le (.num 0) (gm_set_max_line_width {} double.nan).2.max_line_width = false) ∧
      (gm_set_line_height {} double.nan = (true, { line_height := double.nan }) ∧
        double_lt (.num 0) (gm_set_line_height {} double.nan).2.line_height = false) ∧
      (gm_set_scale {} double.nan (.num 1) = (true, { scale_x := double.nan }) ∧
        double_lt (.num 0) (gm_set_scale {} double.nan (.num 1)).2.scale_x = false) ∧
      ((∀ c ∈ calls, ∀ a ∈ setter_args c, a ≠ double.nan) →
        double_le (.num 0) (run_setters {} calls).alpha = true ∧
        double_le (run_setters {} calls).alpha (.num 1) = true ∧
        ((run_setters {} calls).halign = -1 ∨ (run_setters {} calls).halign = 0 ∨
          (run_setters {} calls).halign = 1) ∧
        ((run_setters {} calls).valign = -1 ∨ (run_setters {} calls).valign = 0 ∨
          (run_setters {} calls).valign = 1) ∧
        double_le (.num 0) (run_setters {} calls).max_line_width = true ∧
        double_lt (.num 0) (run_setters {} calls).line_height = true ∧
        double_lt (.num 0) (run_setters {} calls).scale_x = true ∧
        double_lt (.num 0) (run_setters {} calls).scale_y = true) ∧
      (∀ (s : gm_setting) (c : setter_call),
        (run_setter s c).1 = false → (run_setter s c).2 = s) := by
  refine ⟨⟨rfl, rfl⟩, ⟨rfl, rfl⟩, ⟨rfl, rfl⟩, ⟨rfl, rfl⟩, ?_, run_setter_false⟩
  intro hn
  exact run_setters_invariant calls {} hn (by
    refine ⟨?_, ?_, ?_, ?_, ?_, ?_, ?_, ?_⟩ <;> simp [double_le, double_lt])

/-- Witness of C16: a scale with one invalid component is refused, then a valid scale is
set; no argument is NaN and the scale is positive afterwards. -/
theorem C16_setters_store_nan_witness :
    (∀ c ∈ [setter_call.scale (.num 2) (.num 0), setter_call.scale (.num 3) (.num 4)],
        ∀ a ∈ setter_args c, a ≠ double.nan) ∧
      double_lt (.num 0) (run_setters {}
        [setter_call.scale (.num 2) (.num 0), setter_call.scale (.num 3) (.num 4)]).scale_x
        = true :=
  ⟨by simp [setter_args],
    ((C16_setters_store_nan
      [setter_call.scale (.num 2) (.num 0), setter_call.scale (.num 3) (.num 4)]).2.2.2.2.1
      (by simp [setter_args])).2.2.2.2.2.2.1⟩

/-! ## C15: a code that is not in the glyph table -/

theorem keeps_entries_refl (m : glyph_map) : keeps_entries m m :=
  fun _ _ h => h

theorem keeps_entries_trans {a b c : glyph_map} (h1 : keeps_entries a b)
    (h2 : keeps_entries b c) : keeps_entries a c :=
  fun k g h => h2 k g (h1 k g h)

theorem keeps_entries_index (m : glyph_map) (ch : wchar_t) :
    keeps_entries m (glyph_index m ch).2 := by
  intro c g h
  unfold glyph_index
  cases hm : m ch with
  | some g' => exact h
  | none =>
    by_cases hc : c = ch
    · subst hc
      rw [hm] at h
      exact absurd h (by simp)
    · simp [hc, h]

theorem drawChar_keeps (setting : draw_setting) (font : font_data) (x y : real)
    (ch : wchar_t) : keeps_entries font.glyph (_drawChar setting font x y ch).1.glyph :=
  keeps_entries_index font.glyph ch

theorem drawLine_keeps (setting : draw_setting) (l : List wchar_t) :
    ∀ (font : font_data) (x y : real),
      keeps_entries font.glyph (_drawLine setting font x y l).1.glyph := by
  induction l with
  | nil => intro font x y; exact keeps_entries_refl _
  | cons ch rest ih =>
    intro font x y
    have h1 := drawChar_keeps setting
      { font with glyph := (glyph_index font.glyph ch).2 } x y ch
    simp only [_drawLine]
    exact keeps_entries_trans (keeps_entries_index font.glyph ch)
      (keeps_entries_trans h1 (ih _ _ _))

theorem drawLineR_loop_keeps (setting : draw_setting) (l : List wchar_t) :
    ∀ (font : font_data) (x y : real),
      keeps_entries font.glyph (_drawLineR_loop setting font x y l).1.glyph := by
  induction l with
  | nil => intro font x y; exact keeps_entries_refl _
  | cons ch rest ih =>
    intro font x y
    have h1 := drawChar_keeps setting
      { font with glyph := (glyph_index font.glyph ch).2 }
      (x - (((glyph_index font.glyph ch).1.left
        + ((glyph_index font.glyph ch).1.width : Int) : Int) : real) * setting.scale_x) y ch
    simp only [_drawLineR_loop]
    exact keeps_entries_trans (keeps_entries_index font.glyph ch)
      (keeps_entries_trans h1 (ih _ _ _))

theorem measure_loop_keeps (setting : draw_setting) (text : List wchar_t) :
    ∀ st : measure_state,
      keeps_entries st.font.glyph (measure_loop setting st text).font.glyph := by
  induction text with
  | nil => intro st; exact keeps_entries_refl _
  | cons p rest ih =>
    intro st
    have h0 := keeps_entries_index st.font.glyph p
    simp only [measure_loop]
    split_ifs
    · exact ih { st with
        offset := st.offset ++ [(setting.letter_spacing * setting.scale_x - st.line_width) / 2]
        line := st.line ++ [st.cur]
        line_width := 0
        cur := [] }
    · exact keeps_entries_trans h0 (ih { st with
        font := { st.font with glyph := (glyph_index st.font.glyph p).2 }
        line_width := st.line_width + char_width setting (glyph_index st.font.glyph p).1 p
        cur := st.cur ++ [p] })
    · exact keeps_entries_trans h0 (ih
        { font := { st.font with glyph := (glyph_index st.font.glyph p).2 }
          offset := st.offset ++
            [(setting.letter_spacing * setting.scale_x - st.line_width) / 2]
          line := st.line ++ [st.cur]
          line_width := char_width setting (glyph_index st.font.glyph p).1 p
          cur := [p] })

theorem draw_split_keeps (setting : draw_setting) (font : font_data)
    (text : List wchar_t) :
    keeps_entries font.glyph (draw_split setting font text).1.glyph := by
  simp only [draw_split]
  split_ifs
  · exact keeps_entries_refl _
  · exact measure_loop_keeps setting text ⟨font, 0, [], [], []⟩

theorem draw_left_keeps (setting : draw_setting) (slh x : real)
    (lines : List (List wchar_t)) : ∀ (font : font_data) (y : real),
      keeps_entries font.glyph (draw_left setting slh x font y lines).1.glyph := by
  induction lines with
  | nil => intro font y; exact keeps_entries_refl _
  | cons l rest ih =>
    intro font y
    exact keeps_entries_trans (drawLine_keeps setting l font x y) (ih _ _)

theorem draw_center_keeps (setting : draw_setting) (slh x : real)
    (lines : List (List wchar_t)) : ∀ (font : font_data) (y : real) (q : List real),
      keeps_entries font.glyph (draw_center setting slh x font y q lines).1.glyph := by
  induction lines with
  | nil => intro font y q; exact keeps_entries_refl _
  | cons l rest ih =>
    intro font y q
    exact keeps_entries_trans (drawLine_keeps setting l font _ y) (ih _ _ _)

theorem draw_right_keeps (setting : draw_setting) (slh x : real)
    (lines : List (List wchar_t)) : ∀ (font : font_data) (y : real),
      keeps_entries font.glyph (draw_right setting slh x font y lines).1.glyph := by
  induction lines with
  | nil => intro font y; exact keeps_entries_refl _
  | cons l rest ih =>
    intro font y
    exact keeps_entries_trans (drawLineR_loop_keeps setting l.reverse font x y) (ih _ _)

theorem draw_keeps (s : draw_system) (x y : real) (text : List wchar_t)
    (hc : contains s._font s._setting.font_id = true) :
    keeps_entries (active_font s).glyph
      (font_at (draw s x y text).2.1._font s._setting.font_id).glyph := by
  have hlt : s._setting.font_id < s._font.length := ((contains_iff _ _).mp hc).1
  simp only [draw, hc, Bool.not_true, Bool.false_eq_true, if_false]
  rw [font_at_set_self _ _ _ hlt]
  have h0 := draw_split_keeps s._setting (active_font s) text
  split_ifs
  · exact keeps_entries_trans h0 (draw_left_keeps _ _ _ _ _ _)
  · exact keeps_entries_trans h0 (draw_center_keeps _ _ _ _ _ _ _)
  · exact keeps_entries_trans h0 (draw_right_keeps _ _ _ _ _ _)

/-- C15. With a live active font and a code `ch` that is not in its glyph table, `draw`
returns true, and the lookup of `ch` yields the all-zero record: the layout width of `ch` is
`letter_spacing*scale_x` (plus `word_spacing*scale_x` for a space); `_drawLine` issues for
it a call with source rectangle `(0, 0)` of width 0 at the cursor and moves the cursor by
exactly that width; in the calls of `draw` every code absent from the table has the source
rectangle `(0, 0, 0, glyph_height)` and every code of the table its own; and every entry
that was in the table is in the table, unchanged, after the call. -/
theorem C15_unknown_glyph_fallback (s : draw_system) (x y : real) (text : List wchar_t)
    (ch : wchar_t)
    (hc : contains s._font s._setting.font_id = true)
    (habs : (active_font s).glyph ch = none) :
    (draw s x y text).1 = true ∧
      (glyph_index (active_font s).glyph ch).1 = ⟨0, 0, 0, 0⟩ ∧
      char_width s._setting (glyph_index (active_font s).glyph ch).1 ch =
        s._setting.letter_spacing * s._setting.scale_x
          + (if ch = space then s._setting.word_spacing * s._setting.scale_x else 0) ∧
      (∀ (px py : real) (rest : List wchar_t),
        (_drawLine s._setting (active_font s) px py (ch :: rest)).2 =
          ⟨(active_font s).sprite_id, 0, 0, 0, 0, (active_font s).glyph_height, px, py,
            s._setting.scale_x, s._setting.scale_y, 0, s._setting.color_top,
            s._setting.color_top, s._setting.color_bottom, s._setting.color_bottom,
            s._setting.alpha⟩ ::
          (_drawLine s._setting (active_font s)
            (px + (s._setting.letter_spacing * s._setting.scale_x
              + (if ch = space then s._setting.word_spacing * s._setting.scale_x else 0)))
            py rest).2) ∧
      (draw s x y text).2.2.map (fun c => (c.left, c.top, c.width, c.height)) =
        (if 0 < s._setting.halign then (draw_lines s text).flatMap List.reverse
          else text.filter (fun c => decide (c ≠ newline))).map
          (fun c => match (active_font s).glyph c with
            | some g => (g.x, g.y, g.width, (active_font s).glyph_height)
            | none => (0, 0, 0, (active_font s).glyph_height)) ∧
      (∀ c g, (active_font s).glyph c = some g →
        (font_at (draw s x y text).2.1._font s._setting.font_id).glyph c = some g) := by
  have hz : (glyph_index (active_font s).glyph ch).1 = ⟨0, 0, 0, 0⟩ := by
    simp [glyph_index, habs, glyph_zero]
  have hw : width_of s._setting (active_font s) ch =
      s._setting.letter_spacing * s._setting.scale_x
        + (if ch = space then s._setting.word_spacing * s._setting.scale_x else 0) := by
    rw [width_of_eq]
    unfold glyph_get
    rw [hz]
    simp
  refine ⟨by rw [draw_ret, hc], hz, hw, ?_, ?_, draw_keeps s x y text hc⟩
  · intro px py rest
    rw [(drawLine_spec s._setting (active_font s) (ch :: rest) (active_font s) px py
        (same_font_refl _)).2,
      (drawLine_spec s._setting (active_font s) rest (active_font s) _ py
        (same_font_refl _)).2]
    simp only [line_calls, hw]
    refine congrArg₂ List.cons ?_ rfl
    simp [_drawChar, hz]
  · rw [draw_calls_rect s x y text hc, draw_lines_flatten]
    have hf : (fun c => ((glyph_get (active_font s).glyph c).x,
        (glyph_get (active_font s).glyph c).y,
        (glyph_get (active_font s).glyph c).width, (active_font s).glyph_height)) =
        (fun c => match (active_font s).glyph c with
          | some g => (g.x, g.y, g.width, (active_font s).glyph_height)
          | none => (0, 0, 0, (active_font s).glyph_height)) := by
      funext c
      unfold glyph_get glyph_index
      cases (active_font s).glyph c <;> rfl
    rw [hf]

/-- Witness of C15: the scenario font has no glyph for the blank; the text `"A B"`. -/
theorem C15_unknown_glyph_fallback_witness :
    contains (scenario_system 7 16 {})._font 0 = true ∧
      (active_font (scenario_system 7 16 {})).glyph 32 = none ∧
      (draw (scenario_system 7 16 {}) 0 0 [65, 32, 66]).1 = true ∧
      (font_at (draw (scenario_system 7 16 {}) 0 0 [65, 32, 66]).2.1._font 0).glyph 65
        = some ⟨0, 0, 10, 0⟩ :=
  ⟨by decide, by decide,
    (C15_unknown_glyph_fallback (scenario_system 7 16 {}) 0 0 [65, 32, 66] 32
      (by decide) (by decide)).1,
    (C15_unknown_glyph_fallback (scenario_system 7 16 {}) 0 0 [65, 32, 66] 32
      (by decide) (by decide)).2.2.2.2.2 65 ⟨0, 0, 10, 0⟩ (by decide)⟩

/-! ## C17: centring offsets -/

theorem measure_lines_offsets (setting : draw_setting) (font : font_data)
    (text : List wchar_t) : ∀ (lw : real) (cur : List wchar_t),
      lw = line_width setting font cur →
      (measure_lines setting font lw cur text).2 =
        (measure_lines setting font lw cur text).1.map (fun l =>
          (setting.letter_spacing * setting.scale_x - line_width setting font l) / 2) := by
  induction text with
  | nil =>
    intro lw cur h
    simp [measure_lines, h]
  | cons p rest ih =>
    intro lw cur h
    simp only [measure_lines]
    split_ifs
    · simp only [List.map_cons, h]
      rw [ih 0 [] (by simp [line_width])]
    · exact ih _ _ (by rw [line_width_append, h])
    · simp only [List.map_cons, h]
      rw [ih _ [p] (by simp [line_width])]

theorem draw_offsets_eq (s : draw_system) (text : List wchar_t)
    (h : s._setting.halign = 0) :
    draw_offsets s text = (draw_lines s text).map (fun l =>
      (s._setting.letter_spacing * s._setting.scale_x
        - line_width s._setting (active_font s) l) / 2) := by
  unfold draw_offsets draw_lines
  rw [draw_split_measured _ _ _ (by simp [h])]
  exact measure_lines_offsets _ _ _ 0 [] (by simp [line_width])

theorem zip_map_self {α β : Type} (f : α → β) (l : List α) :
    (l.map f).zip l = l.map (fun a => (f a, a)) := by
  induction l with
  | nil => rfl
  | cons a rest ih => simp [ih]

/-- C17. Under Center alignment (`halign = 0`), for every text and every `max_line_width`,
the vector `offset` built by `draw` has one entry per line, the entry of a line is
`(letter_spacing*scale_x - W)/2` with `W` the sum of the `char_width` of the characters of
the line, and with a live active font the glyphs of the line are drawn left to right
starting from `x + offset_x*scale_x + (letter_spacing*scale_x - W)/2`. -/
theorem C17_centering_offsets (s : draw_system) (x y : real) (text : List wchar_t)
    (hc : contains s._font s._setting.font_id = true) (hcenter : s._setting.halign = 0) :
    (draw_offsets s text).length = (draw_lines s text).length ∧
      draw_offsets s text = (draw_lines s text).map (fun l =>
        (s._setting.letter_spacing * s._setting.scale_x
          - (l.map (fun c =>
              char_width s._setting (glyph_get (active_font s).glyph c) c)).sum) / 2) ∧
      (draw s x y text).2.2.map (fun c => c.x) =
        (draw_lines s text).flatMap (fun l => (List.range l.length).map (fun i =>
          x + s._setting.offset_x * s._setting.scale_x
            + (s._setting.letter_spacing * s._setting.scale_x
              - (l.map (fun c =>
                  char_width s._setting (glyph_get (active_font s).glyph c) c)).sum) / 2
            + ((l.take i).map (fun c =>
                char_width s._setting (glyph_get (active_font s).glyph c) c)).sum
            + ((glyph_get (active_font s).glyph (l.getD i 0)).left : real)
                * s._setting.scale_x)) := by
  refine ⟨draw_offsets_length s text hcenter, draw_offsets_eq s text hcenter, ?_⟩
  rw [draw_calls_center s x y text hc hcenter]
  refine (block_calls_map (line_advance s) _ _
    (fun ol : real × List wchar_t => (List.range ol.2.length).map (fun i =>
      x + s._setting.offset_x * s._setting.scale_x + ol.1
        + ((ol.2.take i).map (width_of s._setting (active_font s))).sum
        + ((glyph_get (active_font s).glyph (ol.2.getD i 0)).left : real)
            * s._setting.scale_x))
    (fun y ol => line_calls_x _ _ y ol.2 _) _ _).trans ?_
  rw [draw_offsets_eq s text hcenter, zip_map_self, List.flatMap_map]
  rfl

/-- Witness of C17: the scenario font, Center alignment, the text `"AB\nA"`: the lines have
widths 20 and 10, so the offsets are -10 and -5. -/
theorem C17_centering_offsets_witness :
    contains (scenario_system 7 16 { halign := 0 })._font 0 = true ∧
      (draw (scenario_system 7 16 { halign := 0 }) 100 0 [65, 66, 10, 65]).2.2.map
        (fun c => c.x) = [90, 100, 95] := by
  refine ⟨by decide, ?_⟩
  rw [(C17_centering_offsets (scenario_system 7 16 { halign := 0 }) 100 0 [65, 66, 10, 65]
    (by decide) rfl).2.2]
  simp [draw_lines, draw_split, measure_loop, char_width, active_font, font_at,
    scenario_system, scenario_glyphs, glyph_index, glyph_get, newline, space,
    List.range_succ, glyph_zero]
  norm_num

/-! ## C18: right alignment against left alignment -/

theorem line_calls_append (setting : draw_setting) (font : font_data) (y : real)
    (a b : List wchar_t) : ∀ x : real,
      line_calls setting font x y (a ++ b) =
        line_calls setting font x y a
          ++ line_calls setting font (x + line_width setting font a) y b := by
  induction a with
  | nil => intro x; simp [line_calls, line_width]
  | cons ch rest ih =>
    intro x
    have hx : x + width_of setting font ch + line_width setting font rest =
        x + line_width setting font (ch :: rest) := by
      simp only [line_width, List.map_cons, List.sum_cons]
      ring
    show (_drawChar setting font x y ch).2 ::
        line_calls setting font (x + width_of setting font ch) y (rest ++ b)
      = (_drawChar setting font x y ch).2 ::
        line_calls setting font (x + width_of setting font ch) y rest
          ++ line_calls setting font (x + line_width setting font (ch :: rest)) y b
    rw [ih, hx]
    rfl

theorem line_calls_R_vs_left (setting : draw_setting) (font : font_data) (y : real)
    (l : List wchar_t) : ∀ x : real,
      (line_calls_R setting font x y l.reverse).reverse.map (fun c => c.x) =
        List.zipWith
          (fun c ch => c.x
            + (if ch = space then setting.word_spacing * setting.scale_x else 0))
          (line_calls setting font
            (x - (line_width setting font l - setting.letter_spacing * setting.scale_x)) y l)
          l := by
  induction l using List.reverseRecOn with
  | nil => intro x; rfl
  | append_singleton init ch ih =>
    intro x
    have hlen : (line_calls setting font
        (x - (line_width setting font (init ++ [ch])
          - setting.letter_spacing * setting.scale_x)) y init).length = init.length :=
      line_calls_length _ _ _ _ _
    have hx : x - (line_width setting font (init ++ [ch])
        - setting.letter_spacing * setting.scale_x) =
        x - width_of setting font ch - (line_width setting font init
          - setting.letter_spacing * setting.scale_x) := by
      rw [line_width_append]
      ring
    rw [List.reverse_append, List.reverse_singleton, List.singleton_append, line_calls_R,
      List.reverse_cons, List.map_append, ih, line_calls_append,
      List.zipWith_append _ _ _ _ _ hlen, hx]
    congr 1
    simp only [line_calls, List.map_cons, List.map_nil, List.zipWith_cons_cons,
      List.zipWith_nil_left, _drawChar, List.cons.injEq, and_true]
    rw [width_of_eq setting font ch]
    unfold glyph_get
    push_cast
    ring

theorem zipWith_shift_zero (d : wchar_t → real) (l : List wchar_t) :
    ∀ cs : List draw_sprite_general, cs.length = l.length → (∀ ch ∈ l, d ch = 0) →
      List.zipWith (fun c ch => c.x + d ch) cs l = cs.map (fun c => c.x) := by
  induction l with
  | nil =>
    intro cs hlen _
    have : cs = [] := List.length_eq_zero.mp hlen
    subst this
    rfl
  | cons ch rest ih =>
    intro cs hlen hd
    cases cs with
    | nil => simp at hlen
    | cons c cs =>
      simp only [List.zipWith_cons_cons, List.map_cons, hd ch (List.mem_cons_self _ _),
        add_zero]
      rw [ih cs (by simpa using hlen) (fun ch' h => hd ch' (List.mem_cons_of_mem _ h))]

/-- C18, counterexample. In the scenario font with `word_spacing = 5`, the line `"A B"`
drawn right-to-left from x = 100 puts the blank at 90, while drawn left-to-right from
`100 - (W - letter_spacing*scale_x) = 75` the blank is at 85 (the glyphs `A` and `B` are at
75 and 90 both times). -/
theorem C18_right_translation_counterexample :
    ¬ (((_drawLineR { word_spacing := 5 } (active_font (scenario_system 7 16 {})) 100 0
          [65, 32, 66]).2.reverse).map (fun c => c.x) =
        (_drawLine { word_spacing := 5 } (active_font (scenario_system 7 16 {}))
          (100 - ((([65, 32, 66] : List wchar_t).map (fun c => char_width { word_spacing := 5 }
            (glyph_get (active_font (scenario_system 7 16 {})).glyph c) c)).sum
            - (0 : real) * 1)) 0 [65, 32, 66]).2.map (fun c => c.x)) := by
  simp [_drawLineR, _drawLineR_loop, _drawLine, _drawChar, char_width, active_font, font_at,
    scenario_system, scenario_glyphs, glyph_index, glyph_get, space, glyph_zero]
  norm_num

/-- C18, amended. For every font, settings value and line, the destination x of a glyph
when the line is drawn right-to-left from `x` equals its destination x when the line is
drawn left-to-right from `x - (W - letter_spacing*scale_x)`, `W` being the sum of the char
widths of the line, plus `word_spacing*scale_x` when the glyph is a space. Hence the two
placements coincide when `word_spacing` is 0 or the line has no space. -/
theorem C18_right_is_left_up_to_word_spacing (setting : draw_setting) (font : font_data)
    (x y : real) (line : List wchar_t) :
    ((_drawLineR setting font x y line).2.reverse).map (fun c => c.x) =
        List.zipWith
          (fun c ch => c.x
            + (if ch = space then setting.word_spacing * setting.scale_x else 0))
          (_drawLine setting font
            (x - ((line.map (fun c => char_width setting (glyph_get font.glyph c) c)).sum
              - setting.letter_spacing * setting.scale_x)) y line).2
          line ∧
      ((setting.word_spacing = 0 ∨ ∀ ch ∈ line, ch ≠ space) →
        ((_drawLineR setting font x y line).2.reverse).map (fun c => c.x) =
          (_drawLine setting font
            (x - ((line.map (fun c => char_width setting (glyph_get font.glyph c) c)).sum
              - setting.letter_spacing * setting.scale_x)) y line).2.map (fun c => c.x)) := by
  have hR := (drawLineR_loop_spec setting font line.reverse font x y (same_font_refl _)).2
  have hL := (drawLine_spec setting font line font
    (x - (line_width setting font line - setting.letter_spacing * setting.scale_x)) y
    (same_font_refl _)).2
  have hmain : ((_drawLineR setting font x y line).2.reverse).map (fun c => c.x) =
      List.zipWith
        (fun c ch => c.x
          + (if ch = space then setting.word_spacing * setting.scale_x else 0))
        (_drawLine setting font
          (x - (line_width setting font line
            - setting.letter_spacing * setting.scale_x)) y line).2
        line := by
    rw [hL]
    unfold _drawLineR
    rw [hR]
    exact line_calls_R_vs_left setting font y line x
  refine ⟨hmain, ?_⟩
  intro h
  have hmain2 := hmain
  rw [zipWith_shift_zero
    (fun ch => if ch = space then setting.word_spacing * setting.scale_x else 0) line _
    (by rw [hL]; exact line_calls_length _ _ _ _ _)
    (by
      intro ch hch
      rcases h with h | h
      · simp [h]
      · simp [h ch hch])] at hmain2
  exact hmain2

/-- Witness of C18: the scenario font, letter spacing 2, the line `"AB"` from x = 100. -/
theorem C18_right_is_left_up_to_word_spacing_witness :
    (∀ ch ∈ ([65, 66] : List wchar_t), ch ≠ space) ∧
      ((_drawLineR { letter_spacing := 2 } (active_font (scenario_system 7 16 {})) 100 0
          [65, 66]).2.reverse).map (fun c => c.x) =
        (_drawLine { letter_spacing := 2 } (active_font (scenario_system 7 16 {}))
          (100 - ((([65, 66] : List wchar_t).map (fun c => char_width { letter_spacing := 2 }
            (glyph_get (active_font (scenario_system 7 16 {})).glyph c) c)).sum
            - (2 : real) * 1)) 0 [65, 66]).2.map (fun c => c.x) :=
  ⟨by decide,
    (C18_right_is_left_up_to_word_spacing { letter_spacing := 2 }
      (active_font (scenario_system 7 16 {})) 100 0 [65, 66]).2 (Or.inr (by decide))⟩

/-! ## C19: a character wider than the maximal width -/

theorem measure_lines_overwide (setting : draw_setting) (font : font_data) (ch : wchar_t)
    (hpos : 0 < setting.max_line_width * setting.scale_x)
    (hwide : setting.max_line_width * setting.scale_x < width_of setting font ch)
    (hch : ch ≠ newline) : ∀ k : Nat,
      (measure_lines setting font (width_of setting font ch) [ch]
        (List.replicate k ch)).1 = List.replicate (k + 1) [ch] := by
  intro k
  induction k with
  | zero => rfl
  | succ n ih =>
    have h1 : ¬ (setting.max_line_width * setting.scale_x = 0 ∨
        width_of setting font ch + width_of setting font ch
          ≤ setting.max_line_width * setting.scale_x) := by
      rw [not_or]
      exact ⟨hpos.ne', by linarith⟩
    simp only [List.replicate_succ, measure_lines, hch, h1, if_false, ih]

/-- C19, with the failing input. With `max_line_width > 0` and `scale_x > 0`, a text of
`k + 1` copies of a character whose char width exceeds `max_line_width*scale_x` is split
into `k + 2` lines: an empty line, closed by the wrap break in front of the first
character, and then one line per character. In the scenario font with `max_line_width = 5`
the text `"A"` gives the two lines `""` and `"A"`. -/
theorem C19_overwide_character_lines (s : draw_system) (ch : wchar_t) (k : Nat)
    (hmax : 0 < s._setting.max_line_width) (hscale : 0 < s._setting.scale_x)
    (hwide : s._setting.max_line_width * s._setting.scale_x
      < char_width s._setting (glyph_get (active_font s).glyph ch) ch)
    (hch : ch ≠ newline) :
    draw_lines s (List.replicate (k + 1) ch) = [] :: List.replicate (k + 1) [ch] ∧
      (draw_lines s (List.replicate (k + 1) ch)).length = k + 2 ∧
      draw_lines (scenario_system 7 16 { max_line_width := 5 }) [65] = [[], [65]] := by
  have hpos : 0 < s._setting.max_line_width * s._setting.scale_x := mul_pos hmax hscale
  have hw : s._setting.max_line_width * s._setting.scale_x
      < width_of s._setting (active_font s) ch := hwide
  have hlines : draw_lines s (List.replicate (k + 1) ch) =
      [] :: List.replicate (k + 1) [ch] := by
    unfold draw_lines
    rw [draw_split_measured _ _ _ (fun h => hpos.ne' h.2)]
    have h1 : ¬ (s._setting.max_line_width * s._setting.scale_x = 0 ∨
        0 + width_of s._setting (active_font s) ch
          ≤ s._setting.max_line_width * s._setting.scale_x) := by
      rw [not_or, zero_add]
      exact ⟨hpos.ne', not_le.mpr hw⟩
    simp only [List.replicate_succ, measure_lines, hch, h1, if_false]
    rw [measure_lines_overwide s._setting (active_font s) ch hpos hw hch k]
    rfl
  refine ⟨hlines, by rw [hlines]; simp, ?_⟩
  simp [draw_lines, draw_split, measure_loop, char_width, active_font, font_at,
    scenario_system, scenario_glyphs, glyph_index, newline, space]
  norm_num

/-- Witness of C19: the scenario font, `max_line_width = 5`, the text `"AA"`. -/
theorem C19_overwide_character_lines_witness :
    draw_lines (scenario_system 7 16 { max_line_width := 5 }) (List.replicate (1 + 1) 65)
      = [] :: List.replicate (1 + 1) [65] :=
  (C19_overwide_character_lines (scenario_system 7 16 { max_line_width := 5 }) 65 1
    (by norm_num [scenario_system]) (by norm_num [scenario_system])
    (by
      simp [char_width, active_font, font_at, scenario_system, scenario_glyphs,
        glyph_index, glyph_get, space]
      norm_num)
    (by decide)).1

/-! ## C20: the wrap bound in scaled units -/

/-- C20. For every text, every `max_line_width > 0` and every `scale_x > 0`, whatever the
signs of the spacings and left bearings, every line that the measured branch produces
either has a sum of char widths of at most `max_line_width*scale_x`, or consists of exactly
one character whose char width exceeds `max_line_width*scale_x`; a line of two or more
characters never exceeds the bound. -/
theorem C20_wrap_bound_scaled_units (setting : draw_setting) (font : font_data)
    (text : List wchar_t)
    (hmax : 0 < setting.max_line_width) (hscale : 0 < setting.scale_x) :
    ∀ l ∈ (measure_loop setting ⟨font, 0, [], [], []⟩ text).line,
      ((l.map (fun c => char_width setting (glyph_index font.glyph c).1 c)).sum
          ≤ setting.max_line_width * setting.scale_x ∨
        ∃ c, l = [c] ∧ setting.max_line_width * setting.scale_x
          < char_width setting (glyph_index font.glyph c).1 c) ∧
      (2 ≤ l.length →
        (l.map (fun c => char_width setting (glyph_index font.glyph c).1 c)).sum
          ≤ setting.max_line_width * setting.scale_x) := by
  have hpos : 0 < setting.max_line_width * setting.scale_x := mul_pos hmax hscale
  obtain ⟨_, hline, _⟩ :=
    measure_loop_spec setting font text ⟨font, 0, [], [], []⟩ (same_font_refl font)
  intro l hl
  rw [hline, List.nil_append] at hl
  have h := measure_lines_bound setting font _ rfl hpos text 0 []
    (by simp [line_width]) (Or.inl hpos.le) l hl
  refine ⟨h, ?_⟩
  intro h2
  rcases h with h | ⟨c, hc, _⟩
  · exact h
  · rw [hc] at h2
    simp at h2

/-- Witness of C20: the scenario font, `max_line_width = 20`, `scale_x = 2`, the text
`"ABA"`, whose first line is `"AB"` of width 40. -/
theorem C20_wrap_bound_scaled_units_witness :
    (([65, 66] : List wchar_t).map (fun c => char_width scenario_wrap._setting
        (glyph_index (active_font scenario_wrap).glyph c).1 c)).sum
      ≤ scenario_wrap._setting.max_line_width * scenario_wrap._setting.scale_x :=
  (C20_wrap_bound_scaled_units scenario_wrap._setting (active_font scenario_wrap)
    [65, 66, 65] (by norm_num [scenario_wrap, scenario_system])
    (by norm_num [scenario_wrap, scenario_system]) [65, 66] (by
      have hL : (measure_loop scenario_wrap._setting
          ⟨active_font scenario_wrap, 0, [], [], []⟩ [65, 66, 65]).line
          = [[65, 66], [65]] := by
        simp [measure_loop, char_width, active_font, font_at, scenario_wrap,
          scenario_system, scenario_glyphs, glyph_index, newline, space]
        norm_num
      rw [hL]
      exact List.mem_cons_self _ _)).2 (by decide)

end gm
